import Mathlib

/-!
# Banking ledger (`src/main.cpp`): shallow embedding and verified properties

Modelling conventions.

* The program is embedded twice. In the first embedding (`Bank.Account`, `Bank.BankingSystem`,
  `Bank.stod`, ...) `double` amounts and balances are exact rationals (`ℚ`): rounding, infinities
  and NaN are outside of it, and its `stod` reads decimal text only, without a range. It carries
  the properties of records, keys, passwords, the counter and the file layout, and the properties
  stated of amounts as exact numbers.
* In the second embedding (`Bank.Machine.Account`, `Bank.Machine.BankingSystem`,
  `Bank.Machine.stod`, ...) a `double` is a `Bank.Double`: IEEE 754 binary64 as on x86-64 Linux
  with glibc and libstdc++, with round to nearest (ties to even) for `+`, `-` and for reading
  text, signed zero, infinities, NaN (every comparison with it is false), and `std::stod` raising
  out_of_range on overflow and on inexact subnormal results. It carries the properties of
  `deposit`, `withdraw`, `transfer` and of loading that depend on the value of a `double`.
* `int` account numbers are unbounded integers (`Int`); signed overflow of the counter is
  undefined in the source and needs more than two thousand million account creations.
* `std::string` is `String`; file contents are `List Char`.
* `std::vector<Transaction>` is a `List Transaction`, `push_back` appends at the end.
* `std::map<int, Account>` is an association list kept in ascending key order by `emplace`.
* Every `Transaction` constructor call reads the wall clock; the text it obtains is an explicit
  argument (`now`) of the operation that constructs the record.
* A pointer into the map (`Account*` from `getAccount`) is the key it was looked up with; a call
  through the pointer rewrites the entry stored under that key.
* `saveAccounts` only writes the backing file; the in-memory ledger is untouched by it, so the
  in-memory operations below return the new ledger and `saveAccounts` is the text written from it.
-/

namespace Bank

/-! ## Transaction -/

/-- Record of one balance-affecting event (class `Transaction`). -/
structure Transaction where
  date : String
  type : String
  amount : ℚ
  description : String
  balanceAfter : ℚ
deriving DecidableEq

/-- Constructor `Transaction(t, amt, desc, bal)`; `now` is the `ctime` text without its newline. -/
def Transaction.new (now : String) (t : String) (amt : ℚ) (desc : String) (bal : ℚ) :
    Transaction :=
  { date := now, type := t, amount := amt, description := desc, balanceAfter := bal }

/-! ## Decimal text of integers (`std::to_string(int)`, `ostream << int`) -/

/-- Character of one decimal digit. -/
def digitChar : Nat → Char
  | 0 => '0'
  | 1 => '1'
  | 2 => '2'
  | 3 => '3'
  | 4 => '4'
  | 5 => '5'
  | 6 => '6'
  | 7 => '7'
  | 8 => '8'
  | _ => '9'

/-- Decimal digits of `n`, most significant first, pushed in front of `acc`. -/
def natDigits : Nat → Nat → List Char → List Char
  | 0, _, acc => acc
  | fuel + 1, n, acc =>
    if n < 10 then digitChar n :: acc
    else natDigits fuel (n / 10) (digitChar (n % 10) :: acc)

/-- Decimal text of a natural number. -/
def natToChars (n : Nat) : List Char := natDigits (n + 1) n []

/-- Decimal text of an integer, with a leading minus sign when negative. -/
def intToChars (i : Int) : List Char :=
  if i < 0 then '-' :: natToChars i.natAbs else natToChars i.natAbs

/-- Call `std::to_string(int)`. -/
def to_string (i : Int) : String := String.mk (intToChars i)

/-! ## Account -/

/-- Class `Account`. -/
structure Account where
  accountNumber : Int
  name : String
  password : String
  balance : ℚ
  transactionHistory : List Transaction
deriving DecidableEq

namespace Account

/-- Constructor `Account(accNum, n, pass, bal)`: the history starts empty. -/
def new (accNum : Int) (n pass : String) (bal : ℚ) : Account :=
  { accountNumber := accNum, name := n, password := pass, balance := bal,
    transactionHistory := [] }

/-- Method `checkPassword`. -/
def checkPassword (a : Account) (pass : String) : Bool :=
  decide (a.password = pass)

/-- Method `deposit`: the returned flag and the account afterwards. Amounts are exact numbers
here; `Machine.Account.deposit` is the method on `double` values. -/
def deposit (a : Account) (amount : ℚ) (now : String) : Bool × Account :=
  if amount > 0 then
    let balance := a.balance + amount
    (true, { a with
      balance := balance
      transactionHistory :=
        a.transactionHistory ++ [Transaction.new now "CREDIT" amount "Deposit" balance] })
  else (false, a)

/-- Method `withdraw`: the returned flag and the account afterwards. Amounts are exact numbers
here; `Machine.Account.withdraw` is the method on `double` values. -/
def withdraw (a : Account) (amount : ℚ) (now : String) : Bool × Account :=
  if amount > 0 ∧ amount ≤ a.balance then
    let balance := a.balance - amount
    (true, { a with
      balance := balance
      transactionHistory :=
        a.transactionHistory ++ [Transaction.new now "DEBIT" amount "Withdrawal" balance] })
  else (false, a)

/-- Method `addTransferTransaction`: appends a record, the balance is not touched. -/
def addTransferTransaction (a : Account) (isCredit : Bool) (amount : ℚ) (otherAccNum : Int)
    (now : String) : Account :=
  let type := if isCredit then "CREDIT" else "DEBIT"
  let desc := if isCredit then "Transfer from " ++ to_string otherAccNum
    else "Transfer to " ++ to_string otherAccNum
  { a with
    transactionHistory := a.transactionHistory ++ [Transaction.new now type amount desc a.balance] }

end Account

/-! ## The account map -/

/-- Member `std::map<int, Account> accounts`, as its entries in iteration order. -/
abbrev AccountMap := List (Int × Account)

namespace AccountMap

/-- Lookup `accounts.find(k)`: the entry stored under `k`, if any. -/
def find : AccountMap → Int → Option Account
  | [], _ => none
  | (k', a) :: rest, k => if k' = k then some a else find rest k

/-- Call `accounts.emplace(k, a)`: inserts in key order, and does nothing when `k` is present. -/
def emplace : AccountMap → Int → Account → AccountMap
  | [], k, a => [(k, a)]
  | (k', a') :: rest, k, a =>
    if k < k' then (k, a) :: (k', a') :: rest
    else if k = k' then (k', a') :: rest
    else (k', a') :: emplace rest k a

/-- Write through a pointer to the entry stored under `k`: the entry becomes `f` of itself. -/
def modify : AccountMap → Int → (Account → Account) → AccountMap
  | [], _, _ => []
  | (k', a) :: rest, k, f =>
    if k' = k then (k', f a) :: rest else (k', a) :: modify rest k f

/-- Keys of the map in iteration order. -/
def keys (m : AccountMap) : List Int := m.map Prod.fst

end AccountMap

/-! ## BankingSystem -/

/-- Class `BankingSystem`: the in-memory ledger. -/
structure BankingSystem where
  accounts : AccountMap
  nextAccountNumber : Int
deriving DecidableEq

namespace BankingSystem

/-- Member initialiser of the constructor: no accounts, counter 1001. -/
def init : BankingSystem := { accounts := [], nextAccountNumber := 1001 }

/-- Method `getAccount`: `none` is the null pointer. -/
def getAccount (s : BankingSystem) (accountNum : Int) : Option Account :=
  s.accounts.find accountNum

/-- Method `createAccount`: the returned pair and the ledger afterwards. -/
def createAccount (s : BankingSystem) (name password : String) (initialDeposit : ℚ) :
    (Int × String) × BankingSystem :=
  if initialDeposit < 0 then ((0, "Initial deposit cannot be negative"), s)
  else
    let accountNum := s.nextAccountNumber
    ((accountNum, "Account created successfully!"),
      { accounts := s.accounts.emplace accountNum
          (Account.new accountNum name password initialDeposit)
        nextAccountNumber := s.nextAccountNumber + 1 })

/-- Method `login`: the returned flag and the ledger afterwards. -/
def login (s : BankingSystem) (accountNum : Int) (password : String) : Bool × BankingSystem :=
  match s.accounts.find accountNum with
  | some a => if a.checkPassword password then (true, s) else (false, s)
  | none => (false, s)

/-- Method `transfer`: the returned pair and the ledger afterwards. The four clock readings are
those of the withdrawal, the deposit, the source leg and the destination leg, in call order. -/
def transfer (s : BankingSystem) (fromAccNum toAccNum : Int) (amount : ℚ)
    (d1 d2 d3 d4 : String) : (Bool × String) × BankingSystem :=
  match s.getAccount fromAccNum, s.getAccount toAccNum with
  | some fromAcc, some _ =>
    if amount ≤ 0 then ((false, "Invalid amount"), s)
    else if fromAcc.balance < amount then ((false, "Insufficient balance"), s)
    else
      let withdrawn := (fromAcc.withdraw amount d1).1
      let m1 := s.accounts.modify fromAccNum (fun a => (a.withdraw amount d1).2)
      if withdrawn then
        let m2 := m1.modify toAccNum (fun a => (a.deposit amount d2).2)
        let m3 := m2.modify fromAccNum
          (fun a => a.addTransferTransaction false amount toAccNum d3)
        let m4 := m3.modify toAccNum
          (fun a => a.addTransferTransaction true amount fromAccNum d4)
        ((true, "Transfer successful"), { s with accounts := m4 })
      else ((false, "Transfer failed"), { s with accounts := m1 })
  | _, _ => ((false, "Invalid account number(s)"), s)

/-- Call `currentAccount->deposit(amount)` of `main`, where `currentAccount` is
`getAccount(accNum)`: the returned flag and the ledger afterwards. -/
def depositAt (s : BankingSystem) (accNum : Int) (amount : ℚ) (now : String) :
    Bool × BankingSystem :=
  match s.getAccount accNum with
  | some a => ((a.deposit amount now).1,
      { s with accounts := s.accounts.modify accNum (fun a => (a.deposit amount now).2) })
  | none => (false, s)

/-- Call `currentAccount->withdraw(amount)` of `main`, where `currentAccount` is
`getAccount(accNum)`: the returned flag and the ledger afterwards. -/
def withdrawAt (s : BankingSystem) (accNum : Int) (amount : ℚ) (now : String) :
    Bool × BankingSystem :=
  match s.getAccount accNum with
  | some a => ((a.withdraw amount now).1,
      { s with accounts := s.accounts.modify accNum (fun a => (a.withdraw amount now).2) })
  | none => (false, s)

end BankingSystem

/-! ## Text of numbers -/

/-- Quotient `n / d` rounded to the nearest integer, ties to even. -/
def roundDiv (n d : Nat) : Nat :=
  let q := n / d
  let r := n % d
  if 2 * r < d then q else if d < 2 * r then q + 1 else if q % 2 = 0 then q else q + 1

/-- Test `10 ^ e ≤ n / d` for `d > 0`. -/
def geTenPow (n d : Nat) (e : Int) : Bool :=
  if 0 ≤ e then decide (d * 10 ^ e.toNat ≤ n) else decide (d ≤ n * 10 ^ (-e).toNat)

/-- Decimal exponent of `n / d` for `n, d > 0`: the `X` with `10 ^ X ≤ n / d < 10 ^ (X + 1)`. -/
def decExp (n d : Nat) : Int :=
  let e : Int := ((natToChars n).length : Int) - ((natToChars d).length : Int)
  if geTenPow n d e then e else e - 1

/-- Value `n / d * 10 ^ k` rounded to the nearest integer, ties to even. -/
def roundScaled (n d : Nat) (k : Int) : Nat :=
  if 0 ≤ k then roundDiv (n * 10 ^ k.toNat) d else roundDiv n (d * 10 ^ (-k).toNat)

/-- Drops the zeros at the end of a digit string. -/
def stripZeros (ds : List Char) : List Char :=
  (ds.reverse.dropWhile (fun c => c = '0')).reverse

/-- Pads a digit string with zeros on the left up to `k` characters. -/
def padZeros (k : Nat) (ds : List Char) : List Char :=
  List.replicate (k - ds.length) '0' ++ ds

/-- Six significant digits of `n / d > 0` and the decimal exponent after rounding. -/
def sixDigits (n d : Nat) : Nat × Int :=
  let x := decExp n d
  let m := roundScaled n d (5 - x)
  if m = 1000000 then (100000, x + 1) else (m, x)

/-- Text of a positive value in the default `ostream` floating format (`%g`, precision 6):
scientific style when the exponent is below -4 or at least 6, fixed style otherwise, trailing
zeros of the fraction removed. -/
def formatPos (n d : Nat) : List Char :=
  let (m, x) := sixDigits n d
  let ds := natToChars m
  if x < -4 ∨ 6 ≤ x then
    let frac := stripZeros (ds.drop 1)
    ds.take 1 ++ (if frac = [] then [] else '.' :: frac) ++
      'e' :: (if x < 0 then '-' else '+') :: padZeros 2 (natToChars x.natAbs)
  else if 0 ≤ x then
    let frac := stripZeros (ds.drop (x.toNat + 1))
    ds.take (x.toNat + 1) ++ (if frac = [] then [] else '.' :: frac)
  else
    '0' :: '.' :: (List.replicate ((-x).toNat - 1) '0' ++ stripZeros ds)

/-- Insertion `ostream << double` with the stream defaults, as `saveToFile` uses it. -/
def doubleToChars (q : ℚ) : List Char :=
  if q = 0 then ['0']
  else if q < 0 then '-' :: formatPos q.num.natAbs q.den
  else formatPos q.num.natAbs q.den

/-- Call `std::to_string(double)`: fixed style with six decimals (`%f`). -/
def to_string_double (q : ℚ) : String :=
  let r := roundDiv (q.num.natAbs * 1000000) q.den
  String.mk ((if q < 0 then ['-'] else []) ++ natToChars (r / 1000000) ++
    '.' :: padZeros 6 (natToChars (r % 1000000)))

/-! ## Saving -/

/-- Method `Transaction::toString`. -/
def Transaction.toString (t : Transaction) : String :=
  t.date ++ "," ++ t.type ++ "," ++ to_string_double t.amount ++ "," ++
    t.description ++ "," ++ to_string_double t.balanceAfter

/-- Method `Account::saveToFile`: the characters written to the file. -/
def Account.saveToFile (a : Account) : List Char :=
  intToChars a.accountNumber ++ ',' :: a.name.data ++ ',' :: a.password.data ++
    ',' :: doubleToChars a.balance ++ '\n' ::
  (natToChars a.transactionHistory.length ++ '\n' ::
  (a.transactionHistory.map (fun t => t.toString.data ++ ['\n'])).flatten)

/-- Method `BankingSystem::saveAccounts`: the text written to the backing file when it can be
opened; the ledger itself is not changed. -/
def BankingSystem.saveAccounts (s : BankingSystem) : List Char :=
  intToChars s.nextAccountNumber ++ '\n' ::
  (natToChars s.accounts.length ++ '\n' ::
  (s.accounts.map (fun p => p.2.saveToFile)).flatten)

/-! ## Loading -/

/-- Input stream: the unread characters and the fail bit. -/
structure IStream where
  rest : List Char
  fail : Bool
deriving DecidableEq

/-- Exceptions that leave `loadAccounts`; nothing catches them. `unmodelled` marks text that
`std::stod` reads as a hexadecimal, infinite or NaN value, which has no rational value. -/
inductive Exn where
  | invalid_argument
  | out_of_range
  | unmodelled
deriving DecidableEq

/-- Predicate `isspace` of the C locale. -/
def isSpace (c : Char) : Bool :=
  c = ' ' || c = '\n' || c = '\t' || c = '\r' || c = Char.ofNat 11 || c = Char.ofNat 12

/-- Value of a decimal digit character. -/
def digitVal (c : Char) : Nat := c.toNat - 48

/-- Value of a digit string read left to right, starting from `acc`. -/
def digitsVal (acc : Nat) : List Char → Nat
  | [] => acc
  | c :: cs => digitsVal (10 * acc + digitVal c) cs

/-- Splits off an optional sign: whether it is a minus, and the remaining characters. -/
def takeSign : List Char → Bool × List Char
  | '-' :: cs => (true, cs)
  | '+' :: cs => (false, cs)
  | cs => (false, cs)

/-- Signed value of a magnitude. -/
def signed (neg : Bool) (n : Nat) : Int := if neg then -(n : Int) else (n : Int)

/-- Extraction `file >> target` for an `int`: the value of the target afterwards and the stream.
A stream that has failed, or ends before a non-space character, leaves the target alone; text
that is not a number stores 0; a value outside the 32-bit range stores the nearest bound. -/
def extractInt (st : IStream) (target : Int) : Int × IStream :=
  if st.fail then (target, st)
  else
    let cs := st.rest.dropWhile isSpace
    if cs = [] then (target, { rest := [], fail := true })
    else
      let (neg, cs1) := takeSign cs
      let ds := cs1.takeWhile Char.isDigit
      let rest := cs1.dropWhile Char.isDigit
      if ds = [] then (0, { rest := rest, fail := true })
      else
        let v := signed neg (digitsVal 0 ds)
        if v < -2147483648 then (-2147483648, { rest := rest, fail := true })
        else if 2147483647 < v then (2147483647, { rest := rest, fail := true })
        else (v, { rest := rest, fail := false })

/-- Call `file.ignore()`: discards one character of a stream that has not failed. -/
def ignore (st : IStream) : IStream :=
  if st.fail then st else { st with rest := st.rest.drop 1 }

/-- Call `getline(file, line)` into a fresh string: the line and the stream afterwards. -/
def getline (st : IStream) : List Char × IStream :=
  if st.fail then ([], st)
  else if st.rest = [] then ([], { rest := [], fail := true })
  else (st.rest.takeWhile (fun c => c != '\n'),
    { rest := (st.rest.dropWhile (fun c => c != '\n')).drop 1, fail := false })

/-- Token loop of `loadAccounts` (`find`, `substr`, `erase`): the pieces of the line between
commas; `cur` holds the characters of the current piece, last first. -/
def splitComma : List Char → List Char → List (List Char)
  | [], cur => [cur.reverse]
  | c :: cs, cur => if c = ',' then cur.reverse :: splitComma cs [] else splitComma cs (c :: cur)

/-- Call `std::stoi(str)`: leading space, optional sign, digits; the rest is ignored. -/
def stoi (str : List Char) : Except Exn Int :=
  let (neg, cs) := takeSign (str.dropWhile isSpace)
  let ds := cs.takeWhile Char.isDigit
  if ds = [] then .error .invalid_argument
  else
    let v := signed neg (digitsVal 0 ds)
    if v < -2147483648 ∨ 2147483647 < v then .error .out_of_range else .ok v

/-- Exponent part of a decimal floating literal: `e` or `E`, optional sign, at least one digit;
0 when the text does not start with such a part. -/
def takeExponent : List Char → Int
  | c :: cs =>
    if c = 'e' ∨ c = 'E' then
      let (neg, cs1) := takeSign cs
      let ds := cs1.takeWhile Char.isDigit
      if ds = [] then 0 else signed neg (digitsVal 0 ds)
    else 0
  | [] => 0

/-- Whether the text (after space and sign) starts a hexadecimal, infinite or NaN literal. -/
def nonDecimal (cs : List Char) : Bool :=
  let low := (cs.take 3).map Char.toLower
  low = ['i', 'n', 'f'] || low = ['n', 'a', 'n'] ||
    (low.take 2 = ['0', 'x'] && (match low.drop 2 with
      | [c] => c.isDigit || ('a' ≤ c && c ≤ 'f') || c = '.'
      | _ => false))

/-- Call `std::stod(str)` on decimal text: leading space, optional sign, digits with an optional
point, optional exponent; the rest is ignored. The value is exact: no rounding and no range, so
out_of_range is never raised here; text that starts an `inf`, `nan` or hexadecimal literal is
answered with `Exn.unmodelled`. `Machine.stod` is the function with the range and these
literals. -/
def stod (str : List Char) : Except Exn ℚ :=
  let (neg, cs) := takeSign (str.dropWhile isSpace)
  if nonDecimal cs then .error .unmodelled
  else
    let ip := cs.takeWhile Char.isDigit
    let r1 := cs.dropWhile Char.isDigit
    let fp := match r1 with
      | '.' :: r2 => r2.takeWhile Char.isDigit
      | _ => []
    let r3 := match r1 with
      | '.' :: r2 => r2.dropWhile Char.isDigit
      | _ => r1
    if ip = [] ∧ fp = [] then .error .invalid_argument
    else
      let mant := digitsVal 0 (ip ++ fp)
      let e : Int := takeExponent r3 - (fp.length : Int)
      let v : ℚ := if 0 ≤ e then (mant : ℚ) * (10 : ℚ) ^ e.toNat
        else (mant : ℚ) / (10 : ℚ) ^ (-e).toNat
      .ok (if neg then -v else v)

/-- Loop of `loadAccounts`: `n` iterations remain. A line with four tokens adds an account; any
other line is passed over. -/
def loadLoop : Nat → IStream → AccountMap → Except Exn AccountMap
  | 0, _, m => .ok m
  | n + 1, st, m =>
    let (line, st1) := getline st
    match splitComma line [] with
    | [t0, t1, t2, t3] =>
      match stoi t0 with
      | .error e => .error e
      | .ok accNum =>
        match stod t3 with
        | .error e => .error e
        | .ok bal =>
          loadLoop n st1 (m.emplace accNum (Account.new accNum (String.mk t1) (String.mk t2) bal))
    | _ => loadLoop n st1 m

/-- Method `BankingSystem::loadAccounts`. `file` is the content of the backing file, `none` when
it cannot be opened; `numAccounts0` is the indeterminate value the local `numAccounts` holds
before the extraction. The result is the ledger afterwards, or the exception that escapes. -/
def BankingSystem.loadAccounts (s : BankingSystem) (file : Option (List Char))
    (numAccounts0 : Int) : Except Exn BankingSystem :=
  match file with
  | none => .ok s
  | some text =>
    let (next, st1) := extractInt { rest := text, fail := false } s.nextAccountNumber
    let (numAccounts, st2) := extractInt st1 numAccounts0
    let st3 := ignore st2
    match loadLoop numAccounts.toNat st3 s.accounts with
    | .error e => .error e
    | .ok m => .ok { accounts := m, nextAccountNumber := next }

/-! ## Call sequences -/

/-- One call made by the menu loop on the ledger. -/
inductive Op where
  | createAccount (name password : String) (initialDeposit : ℚ)
  | deposit (accNum : Int) (amount : ℚ) (now : String)
  | withdraw (accNum : Int) (amount : ℚ) (now : String)
  | transfer (fromAccNum toAccNum : Int) (amount : ℚ) (d1 d2 d3 d4 : String)

/-- Ledger after one call. -/
def step (s : BankingSystem) : Op → BankingSystem
  | .createAccount n p d => (s.createAccount n p d).2
  | .deposit k amt now => (s.depositAt k amt now).2
  | .withdraw k amt now => (s.withdrawAt k amt now).2
  | .transfer f t amt d1 d2 d3 d4 => (s.transfer f t amt d1 d2 d3 d4).2

/-- Ledger after a sequence of calls. -/
def run (s : BankingSystem) (ops : List Op) : BankingSystem := ops.foldl step s

/-- Scenario ledger: Alice (1001, balance 150) and Bob (1002, balance 0), no history. -/
def aliceBob : BankingSystem :=
  { accounts := [(1001, Account.new 1001 "Alice" "p1" 150), (1002, Account.new 1002 "Bob" "p2" 0)]
    nextAccountNumber := 1003 }

/-- Scenario of the specification: Alice opens with 100, deposits 50, a withdrawal of 200 is
refused, Bob opens with 0, Alice transfers 75 to Bob. -/
def scenario : List Op :=
  [.createAccount "Alice" "p1" 100, .deposit 1001 50 "t0", .withdraw 1001 200 "t0",
   .createAccount "Bob" "p2" 0, .transfer 1001 1002 75 "t1" "t2" "t3" "t4"]

/-- Sum of the amounts of the records of the given kind. -/
def sumOfType (type : String) (h : List Transaction) : ℚ :=
  ((h.filter (fun t => t.type = type)).map Transaction.amount).sum

/-- Sum of the amounts of the records of the given kind and description. -/
def sumOfTypeDesc (type desc : String) (h : List Transaction) : ℚ :=
  ((h.filter (fun t => t.type = type ∧ t.description = desc)).map Transaction.amount).sum

/-- Ledger invariant: keys strictly ascending, each at least 1001 and below the counter, and
every entry stored under its own account number. -/
def Inv (s : BankingSystem) : Prop :=
  s.accounts.keys.Pairwise (fun a b => a < b) ∧
  (∀ k ∈ s.accounts.keys, 1001 ≤ k ∧ k < s.nextAccountNumber) ∧
  (∀ p ∈ s.accounts, p.2.accountNumber = p.1) ∧
  1001 ≤ s.nextAccountNumber

/-- Balance equation of one account opened with `d`: the balance is `d` plus the amounts credited
by deposits minus the amounts debited by withdrawals. -/
def Balanced (d : ℚ) (a : Account) : Prop :=
  a.balance = d + sumOfTypeDesc "CREDIT" "Deposit" a.transactionHistory -
    sumOfTypeDesc "DEBIT" "Withdrawal" a.transactionHistory

/-- Exception that escaped, if any. -/
def raised {α : Type} : Except Exn α → Option Exn
  | .error e => some e
  | .ok _ => none

/-- Balance of an account opened with `d` at the moment its history was `h`: `d` plus the
amounts credited by deposits minus the amounts debited by withdrawals recorded in `h`. -/
def balanceAt (d : ℚ) (h : List Transaction) : ℚ :=
  d + sumOfTypeDesc "CREDIT" "Deposit" h - sumOfTypeDesc "DEBIT" "Withdrawal" h

/-- History invariant of an account opened with `d`: every amount is positive, the balance is
the one the history determines, and every record carries the balance the account had when the
history ended with that record. -/
def HistoryOK (d : ℚ) (a : Account) : Prop :=
  (∀ r ∈ a.transactionHistory, 0 < r.amount) ∧
  a.balance = balanceAt d a.transactionHistory ∧
  (∀ p r q, a.transactionHistory = p ++ r :: q → r.balanceAfter = balanceAt d (p ++ [r]))

/-- Outcome of one mutating method of `Account`: nothing changed, or exactly one record was
appended whose balanceAfter is the balance right after the call. -/
def AppendsCurrent (x y : Account) : Prop :=
  y = x ∨ ∃ r, y.transactionHistory = x.transactionHistory ++ [r] ∧ r.balanceAfter = y.balance

/-- Decimal digit characters. -/
def digitChars : List Char := ['0', '1', '2', '3', '4', '5', '6', '7', '8', '9']

/-- Characters that occur in the text of a number: digits, point, exponent mark and signs. -/
def numChars : List Char := digitChars ++ ['.', 'e', '+', '-']

/-- Text made of the given lines, each ended by a newline (`<< endl`). -/
def unlines (ls : List (List Char)) : List Char :=
  (ls.map (fun l => l ++ ['\n'])).flatten

/-- Lines of a text: the pieces ended by a newline, followed by the piece after the last newline
when that piece is not empty; `cur` holds the characters of the current piece, last first. -/
def textLines : List Char → List Char → List (List Char)
  | [], cur => if cur = [] then [] else [cur.reverse]
  | c :: cs, cur =>
    if c = '\n' then cur.reverse :: textLines cs [] else textLines cs (c :: cur)

/-- Account line of the backing store: `<accountNumber>,<name>,<password>,<balance>`. -/
def accountLine (a : Account) : List Char :=
  intToChars a.accountNumber ++ ',' :: a.name.data ++ ',' :: a.password.data ++
    ',' :: doubleToChars a.balance

/-- Line group of one account as the specification lays it out: the account line, a line
holding the transaction count, and one line per transaction in history order. -/
def accountGroup (a : Account) : List (List Char) :=
  accountLine a :: natToChars a.transactionHistory.length ::
    a.transactionHistory.map (fun t => t.toString.data)

/-- Lines of the backing store as the specification lays them out: the counter, the number of
accounts, then the group of every account in map order. -/
def specLines (s : BankingSystem) : List (List Char) :=
  intToChars s.nextAccountNumber :: natToChars s.accounts.length ::
    (s.accounts.map (fun p => accountGroup p.2)).flatten

/-- Account whose name, password and record texts (the `ctime` date, the kind and the
description) contain no newline, so that every line written for it is one line of the file. -/
def LineSafe (a : Account) : Prop :=
  '\n' ∉ a.name.data ∧ '\n' ∉ a.password.data ∧
  (∀ t ∈ a.transactionHistory,
    '\n' ∉ t.date.data ∧ '\n' ∉ t.type.data ∧ '\n' ∉ t.description.data)

instance decLineSafe (a : Account) : Decidable (LineSafe a) := by
  unfold LineSafe
  exact inferInstance

/-! ## Machine numbers

The type `double` as the program runs it on x86-64 Linux (IEEE 754 binary64, round to nearest
with ties to even; glibc and libstdc++ for text). A finite value is the rational it denotes. -/

/-- Value of type `double`: a finite value (`fin 0` is +0), -0, an infinity or a NaN, the last
two with their sign bit. -/
inductive Double where
  | fin (q : ℚ)
  | negZero
  | inf (neg : Bool)
  | nan (neg : Bool)
deriving DecidableEq

/-- Largest `k` with `2 ^ k ≤ n`, for `n > 0`; `fuel` bounds the number of halvings. -/
def log2Nat : Nat → Nat → Nat
  | 0, _ => 0
  | fuel + 1, n => if n < 2 then 0 else log2Nat fuel (n / 2) + 1

/-- Test `2 ^ e ≤ n / d` for `d > 0`. -/
def geTwoPow (n d : Nat) (e : Int) : Bool :=
  if 0 ≤ e then decide (d * 2 ^ e.toNat ≤ n) else decide (d ≤ n * 2 ^ (-e).toNat)

/-- Binary exponent of `n / d` for `n, d > 0`: the `e` with `2 ^ e ≤ n / d < 2 ^ (e + 1)`. -/
def binExp (n d : Nat) : Int :=
  let e : Int := (log2Nat n n : Int) - (log2Nat d d : Int)
  if geTwoPow n d e then e else e - 1

/-- Value `n / d * 2 ^ k` rounded to the nearest integer, ties to even. -/
def roundScaled2 (n d : Nat) (k : Int) : Nat :=
  if 0 ≤ k then roundDiv (n * 2 ^ k.toNat) d else roundDiv n (d * 2 ^ (-k).toNat)

/-- Power of two with an integer exponent. -/
def pow2 (u : Int) : ℚ :=
  if 0 ≤ u then (2 : ℚ) ^ u.toNat else 1 / (2 : ℚ) ^ (-u).toNat

/-- Magnitude `n / d > 0` rounded to 53 significant bits, the exponent of the last bit being at
least `emin - 52`. -/
def roundBits (emin : Int) (n d : Nat) : ℚ :=
  let u : Int := max (binExp n d) emin - 52
  (roundScaled2 n d (-u) : ℚ) * pow2 u

/-- Magnitude `n / d > 0` rounded to the nearest binary64 magnitude, subnormals included;
values from `2 ^ 1024` on stand for an overflow. -/
def roundMag (n d : Nat) : ℚ := roundBits (-1022) n d

namespace Double

/-- Rational rounded to the nearest `double`, ties to even; an overflow gives an infinity. -/
def ofRat (q : ℚ) : Double :=
  if q = 0 then fin 0
  else
    let v := roundMag q.num.natAbs q.den
    if (2 : ℚ) ^ 1024 ≤ v then inf (decide (q < 0))
    else if v = 0 then (if q < 0 then negZero else fin 0)
    else fin (if q < 0 then -v else v)

/-- Literal `0` of the comparisons, converted to `double`. -/
def zero : Double := fin 0

/-- Place of a value in the order of the comparisons: NaN has none; the first component is -1
for minus infinity, 0 for finite values and 1 for plus infinity. -/
def ord : Double → Option (Int × ℚ)
  | fin q => some (0, q)
  | negZero => some (0, 0)
  | inf neg => some (if neg then -1 else 1, 0)
  | nan _ => none

/-- Comparison `x < y`; false when either side is NaN. -/
def lt (x y : Double) : Bool :=
  match x.ord, y.ord with
  | some (i, a), some (j, b) => decide (i < j ∨ (i = j ∧ a < b))
  | _, _ => false

/-- Comparison `x <= y`; false when either side is NaN. -/
def le (x y : Double) : Bool :=
  match x.ord, y.ord with
  | some (i, a), some (j, b) => decide (i < j ∨ (i = j ∧ a ≤ b))
  | _, _ => false

/-- Whether the value is a NaN. -/
def isNaN : Double → Bool
  | nan _ => true
  | _ => false

/-- Sum `x + y` (`addsd`): a NaN operand is returned, the first one when both are; infinities
of opposite sign give the default NaN, whose sign bit is set; an exact zero sum is +0 unless
both operands are -0; any other finite sum is rounded. -/
def add : Double → Double → Double
  | nan s, _ => nan s
  | _, nan s => nan s
  | inf a, inf b => if a = b then inf a else nan true
  | inf a, _ => inf a
  | _, inf b => inf b
  | negZero, negZero => negZero
  | negZero, fin y => if y = 0 then fin 0 else ofRat y
  | fin x, negZero => if x = 0 then fin 0 else ofRat x
  | fin x, fin y => if x + y = 0 then fin 0 else ofRat (x + y)

/-- Difference `x - y` (`subsd`): as `add`, with `y` negated when it is not a NaN. -/
def sub : Double → Double → Double
  | nan s, _ => nan s
  | _, nan s => nan s
  | inf a, inf b => if a = b then nan true else inf a
  | inf a, _ => inf a
  | _, inf b => inf (!b)
  | negZero, negZero => fin 0
  | negZero, fin y => if y = 0 then negZero else ofRat (-y)
  | fin x, negZero => if x = 0 then fin 0 else ofRat x
  | fin x, fin y => if x - y = 0 then fin 0 else ofRat (x - y)

/-- Insertion `ostream << double` with the stream defaults (`%g`, precision 6). -/
def put : Double → List Char
  | fin q =>
    if q = 0 then ['0']
    else if q < 0 then '-' :: formatPos q.num.natAbs q.den
    else formatPos q.num.natAbs q.den
  | negZero => ['-', '0']
  | inf neg => if neg then ['-', 'i', 'n', 'f'] else ['i', 'n', 'f']
  | nan neg => if neg then ['-', 'n', 'a', 'n'] else ['n', 'a', 'n']

/-- Call `std::to_string(double)` (`%f`): six decimals. -/
def to_string : Double → String
  | fin q =>
    let r := roundDiv (q.num.natAbs * 1000000) q.den
    String.mk ((if q < 0 then ['-'] else []) ++ natToChars (r / 1000000) ++
      '.' :: padZeros 6 (natToChars (r % 1000000)))
  | negZero => "-0.000000"
  | inf neg => if neg then "-inf" else "inf"
  | nan neg => if neg then "-nan" else "nan"

end Double

/-! ## The program on machine numbers

The classes and methods of `src/main.cpp` again, with `double` as `Double`: sums and differences
round, comparisons with a NaN are false, and `std::stod` raises on text outside the range. The
definitions above are the same program with amounts taken as exact numbers. -/

namespace Machine

/-- Class `Transaction` with `double` fields. -/
structure Transaction where
  date : String
  type : String
  amount : Double
  description : String
  balanceAfter : Double
deriving DecidableEq

/-- Constructor `Transaction(t, amt, desc, bal)`; `now` is the `ctime` text without its newline. -/
def Transaction.new (now : String) (t : String) (amt : Double) (desc : String) (bal : Double) :
    Transaction :=
  { date := now, type := t, amount := amt, description := desc, balanceAfter := bal }

/-- Class `Account` with a `double` balance. -/
structure Account where
  accountNumber : Int
  name : String
  password : String
  balance : Double
  transactionHistory : List Transaction
deriving DecidableEq

namespace Account

/-- Constructor `Account(accNum, n, pass, bal)`: the history starts empty. -/
def new (accNum : Int) (n pass : String) (bal : Double) : Account :=
  { accountNumber := accNum, name := n, password := pass, balance := bal,
    transactionHistory := [] }

/-- Method `deposit`: the returned flag and the account afterwards. -/
def deposit (a : Account) (amount : Double) (now : String) : Bool × Account :=
  if Double.lt Double.zero amount then
    let balance := Double.add a.balance amount
    (true, { a with
      balance := balance
      transactionHistory :=
        a.transactionHistory ++ [Transaction.new now "CREDIT" amount "Deposit" balance] })
  else (false, a)

/-- Method `withdraw`: the returned flag and the account afterwards. -/
def withdraw (a : Account) (amount : Double) (now : String) : Bool × Account :=
  if Double.lt Double.zero amount && Double.le amount a.balance then
    let balance := Double.sub a.balance amount
    (true, { a with
      balance := balance
      transactionHistory :=
        a.transactionHistory ++ [Transaction.new now "DEBIT" amount "Withdrawal" balance] })
  else (false, a)

/-- Method `addTransferTransaction`: appends a record, the balance is not touched. -/
def addTransferTransaction (a : Account) (isCredit : Bool) (amount : Double)
    (otherAccNum : Int) (now : String) : Account :=
  let type := if isCredit then "CREDIT" else "DEBIT"
  let desc := if isCredit then "Transfer from " ++ to_string otherAccNum
    else "Transfer to " ++ to_string otherAccNum
  { a with
    transactionHistory := a.transactionHistory ++ [Transaction.new now type amount desc a.balance] }

end Account

/-- Member `std::map<int, Account> accounts`, as its entries in iteration order. -/
abbrev AccountMap := List (Int × Account)

namespace AccountMap

/-- Lookup `accounts.find(k)`: the entry stored under `k`, if any. -/
def find : AccountMap → Int → Option Account
  | [], _ => none
  | (k', a) :: rest, k => if k' = k then some a else find rest k

/-- Call `accounts.emplace(k, a)`: inserts in key order, and does nothing when `k` is present. -/
def emplace : AccountMap → Int → Account → AccountMap
  | [], k, a => [(k, a)]
  | (k', a') :: rest, k, a =>
    if k < k' then (k, a) :: (k', a') :: rest
    else if k = k' then (k', a') :: rest
    else (k', a') :: emplace rest k a

/-- Write through a pointer to the entry stored under `k`: the entry becomes `f` of itself. -/
def modify : AccountMap → Int → (Account → Account) → AccountMap
  | [], _, _ => []
  | (k', a) :: rest, k, f =>
    if k' = k then (k', f a) :: rest else (k', a) :: modify rest k f

/-- Keys of the map in iteration order. -/
def keys (m : AccountMap) : List Int := m.map Prod.fst

end AccountMap

/-- Class `BankingSystem`: the in-memory ledger. -/
structure BankingSystem where
  accounts : AccountMap
  nextAccountNumber : Int
deriving DecidableEq

namespace BankingSystem

/-- Member initialiser of the constructor: no accounts, counter 1001. -/
def init : BankingSystem := { accounts := [], nextAccountNumber := 1001 }

/-- Method `getAccount`: `none` is the null pointer. -/
def getAccount (s : BankingSystem) (accountNum : Int) : Option Account :=
  s.accounts.find accountNum

/-- Method `createAccount`: the returned pair and the ledger afterwards. -/
def createAccount (s : BankingSystem) (name password : String) (initialDeposit : Double) :
    (Int × String) × BankingSystem :=
  if Double.lt initialDeposit Double.zero then ((0, "Initial deposit cannot be negative"), s)
  else
    let accountNum := s.nextAccountNumber
    ((accountNum, "Account created successfully!"),
      { accounts := s.accounts.emplace accountNum
          (Account.new accountNum name password initialDeposit)
        nextAccountNumber := s.nextAccountNumber + 1 })

/-- Method `transfer`: the returned pair and the ledger afterwards. The four clock readings are
those of the withdrawal, the deposit, the source leg and the destination leg, in call order. -/
def transfer (s : BankingSystem) (fromAccNum toAccNum : Int) (amount : Double)
    (d1 d2 d3 d4 : String) : (Bool × String) × BankingSystem :=
  match s.getAccount fromAccNum, s.getAccount toAccNum with
  | some fromAcc, some _ =>
    if Double.le amount Double.zero then ((false, "Invalid amount"), s)
    else if Double.lt fromAcc.balance amount then ((false, "Insufficient balance"), s)
    else
      let withdrawn := (fromAcc.withdraw amount d1).1
      let m1 := s.accounts.modify fromAccNum (fun a => (a.withdraw amount d1).2)
      if withdrawn then
        let m2 := m1.modify toAccNum (fun a => (a.deposit amount d2).2)
        let m3 := m2.modify fromAccNum
          (fun a => a.addTransferTransaction false amount toAccNum d3)
        let m4 := m3.modify toAccNum
          (fun a => a.addTransferTransaction true amount fromAccNum d4)
        ((true, "Transfer successful"), { s with accounts := m4 })
      else ((false, "Transfer failed"), { s with accounts := m1 })
  | _, _ => ((false, "Invalid account number(s)"), s)

end BankingSystem

/-- Method `Transaction::toString`. -/
def Transaction.toString (t : Transaction) : String :=
  t.date ++ "," ++ t.type ++ "," ++ t.amount.to_string ++ "," ++
    t.description ++ "," ++ t.balanceAfter.to_string

/-- Method `Account::saveToFile`: the characters written to the file. -/
def Account.saveToFile (a : Account) : List Char :=
  intToChars a.accountNumber ++ ',' :: a.name.data ++ ',' :: a.password.data ++
    ',' :: a.balance.put ++ '\n' ::
  (natToChars a.transactionHistory.length ++ '\n' ::
  (a.transactionHistory.map (fun t => t.toString.data ++ ['\n'])).flatten)

/-- Method `BankingSystem::saveAccounts`: the text written to the backing file when it can be
opened; the ledger itself is not changed. -/
def BankingSystem.saveAccounts (s : BankingSystem) : List Char :=
  intToChars s.nextAccountNumber ++ '\n' ::
  (natToChars s.accounts.length ++ '\n' ::
  (s.accounts.map (fun p => p.2.saveToFile)).flatten)

/-- Value of a hexadecimal digit character, if it is one. -/
def hexVal (c : Char) : Option Nat :=
  if c.isDigit then some (c.toNat - 48)
  else if 'a' ≤ c ∧ c ≤ 'f' then some (c.toNat - 87)
  else if 'A' ≤ c ∧ c ≤ 'F' then some (c.toNat - 55)
  else none

/-- Whether the character is a hexadecimal digit. -/
def isHex (c : Char) : Bool := (hexVal c).isSome

/-- Value of a hexadecimal digit string read left to right, starting from `acc`. -/
def hexDigitsVal (acc : Nat) : List Char → Nat
  | [] => acc
  | c :: cs => hexDigitsVal (16 * acc + (hexVal c).getD 0) cs

/-- Binary exponent part of a hexadecimal floating literal: `p` or `P`, optional sign, at least
one decimal digit; 0 when the text does not start with such a part. -/
def takeBinExponent : List Char → Int
  | c :: cs =>
    if c = 'p' ∨ c = 'P' then
      let (neg, cs1) := takeSign cs
      let ds := cs1.takeWhile Char.isDigit
      if ds = [] then 0 else signed neg (digitsVal 0 ds)
    else 0
  | [] => 0

/-- Whether the text starts a hexadecimal literal: `0x` or `0X` and then a hexadecimal digit,
or a point and a hexadecimal digit. -/
def hexStart : List Char → Bool
  | c0 :: c1 :: c2 :: rest =>
    c0 = '0' && (c1 = 'x' || c1 = 'X') &&
      (isHex c2 || (c2 = '.' && (match rest with
        | c3 :: _ => isHex c3
        | [] => false)))
  | _ => false

/-- Magnitude of hexadecimal literal text after its `0x`: digits with an optional point and an
optional binary exponent. -/
def hexMag (cs : List Char) : ℚ :=
  let ip := cs.takeWhile isHex
  let r1 := cs.dropWhile isHex
  let fp := match r1 with
    | '.' :: r2 => r2.takeWhile isHex
    | _ => []
  let r3 := match r1 with
    | '.' :: r2 => r2.dropWhile isHex
    | _ => r1
  (hexDigitsVal 0 (ip ++ fp) : ℚ) * pow2 (takeBinExponent r3 - 4 * (fp.length : Int))

/-- Magnitude of decimal literal text: digits with an optional point and an optional decimal
exponent; `none` when there is no digit. -/
def decMag (cs : List Char) : Option ℚ :=
  let ip := cs.takeWhile Char.isDigit
  let r1 := cs.dropWhile Char.isDigit
  let fp := match r1 with
    | '.' :: r2 => r2.takeWhile Char.isDigit
    | _ => []
  let r3 := match r1 with
    | '.' :: r2 => r2.dropWhile Char.isDigit
    | _ => r1
  if ip = [] ∧ fp = [] then none
  else
    let mant := digitsVal 0 (ip ++ fp)
    let e : Int := takeExponent r3 - (fp.length : Int)
    some (if 0 ≤ e then (mant : ℚ) * (10 : ℚ) ^ e.toNat else (mant : ℚ) / (10 : ℚ) ^ (-e).toNat)

/-- Result of `strtod` for the exact magnitude `a` as `std::stod` hands it on: zero keeps its
sign; a magnitude that rounds to infinity, or one that stays below the normal range after
rounding to 53 bits and is not a `double` itself, sets ERANGE, on which `std::stod` raises
out_of_range. -/
def roundParsed (neg : Bool) (a : ℚ) : Except Exn Double :=
  if a = 0 then .ok (if neg then Double.negZero else Double.fin 0)
  else
    let v := roundMag a.num.natAbs a.den
    if (2 : ℚ) ^ 1024 ≤ v then .error .out_of_range
    else if roundBits (binExp a.num.natAbs a.den) a.num.natAbs a.den < pow2 (-1022) ∧ v ≠ a then
      .error .out_of_range
    else .ok (Double.fin (if neg then -v else v))

/-- Call `std::stod(str)`: leading space, optional sign, then `inf`, `nan`, a hexadecimal or a
decimal literal; the rest is ignored. Text with no number raises invalid_argument. -/
def stod (str : List Char) : Except Exn Double :=
  let (neg, cs) := takeSign (str.dropWhile isSpace)
  let low := (cs.take 3).map Char.toLower
  if low = ['i', 'n', 'f'] then .ok (Double.inf neg)
  else if low = ['n', 'a', 'n'] then .ok (Double.nan neg)
  else if hexStart cs then roundParsed neg (hexMag (cs.drop 2))
  else
    match decMag cs with
    | none => .error .invalid_argument
    | some a => roundParsed neg a

/-- Loop of `loadAccounts`: `n` iterations remain. A line with four tokens adds an account; any
other line is passed over. -/
def loadLoop : Nat → IStream → AccountMap → Except Exn AccountMap
  | 0, _, m => .ok m
  | n + 1, st, m =>
    let (line, st1) := getline st
    match splitComma line [] with
    | [t0, t1, t2, t3] =>
      match stoi t0 with
      | .error e => .error e
      | .ok accNum =>
        match stod t3 with
        | .error e => .error e
        | .ok bal =>
          loadLoop n st1 (m.emplace accNum (Account.new accNum (String.mk t1) (String.mk t2) bal))
    | _ => loadLoop n st1 m

/-- Method `BankingSystem::loadAccounts`. `file` is the content of the backing file, `none` when
it cannot be opened; `numAccounts0` is the indeterminate value the local `numAccounts` holds
before the extraction. The result is the ledger afterwards, or the exception that escapes. -/
def BankingSystem.loadAccounts (s : BankingSystem) (file : Option (List Char))
    (numAccounts0 : Int) : Except Exn BankingSystem :=
  match file with
  | none => .ok s
  | some text =>
    let (next, st1) := extractInt { rest := text, fail := false } s.nextAccountNumber
    let (numAccounts, st2) := extractInt st1 numAccounts0
    let st3 := ignore st2
    match loadLoop numAccounts.toNat st3 s.accounts with
    | .error e => .error e
    | .ok m => .ok { accounts := m, nextAccountNumber := next }

end Machine

namespace Machine

/-- Account line of the backing store: `<accountNumber>,<name>,<password>,<balance>`. -/
def accountLine (a : Account) : List Char :=
  intToChars a.accountNumber ++ ',' :: a.name.data ++ ',' :: a.password.data ++
    ',' :: a.balance.put

/-- Line group of one account: the account line, a line holding the transaction count, and one
line per transaction in history order. -/
def accountGroup (a : Account) : List (List Char) :=
  accountLine a :: natToChars a.transactionHistory.length ::
    a.transactionHistory.map (fun t => t.toString.data)

/-- Balance that `std::stod` reads back from the text `saveToFile` writes for `b`, when it reads
one. -/
def reread (b : Double) : Double :=
  match stod b.put with
  | .ok v => v
  | .error _ => b

/-- Accounts that `loadAccounts` rebuilds from the groups of `as` when `n` lines are still to be
read: the first account takes one line, its transaction count and transactions take the next
lines, and what is read back has the reread balance and no history. -/
def restored : List (Int × Account) → Nat → List (Int × Account)
  | [], _ => []
  | _ :: _, 0 => []
  | p :: rest, n + 1 =>
    (p.2.accountNumber,
      Account.new p.2.accountNumber p.2.name p.2.password (reread p.2.balance)) ::
      restored rest (n - (1 + p.2.transactionHistory.length))

/-- All entries of `l` emplaced into `m`, first to last. -/
def emplaceAll (m : AccountMap) (l : List (Int × Account)) : AccountMap :=
  l.foldl (fun acc p => acc.emplace p.1 p.2) m

/-- Account whose name, password and record texts (the `ctime` date, the kind and the
description) contain no newline, so that every line written for it is one line of the file. -/
def LineSafe (a : Account) : Prop :=
  '\n' ∉ a.name.data ∧ '\n' ∉ a.password.data ∧
  (∀ t ∈ a.transactionHistory,
    '\n' ∉ t.date.data ∧ '\n' ∉ t.type.data ∧ '\n' ∉ t.description.data)

/-- Account as the program can hold it with fields that keep the store readable: the number is
a 32-bit `int`, name and password contain no comma or newline, the texts of its records contain
no newline, and `std::stod` reads the text written for the balance without raising. -/
def Storable (a : Account) : Prop :=
  (-2147483648 ≤ a.accountNumber ∧ a.accountNumber ≤ 2147483647) ∧
  (',' ∉ a.name.data ∧ '\n' ∉ a.name.data) ∧
  (',' ∉ a.password.data ∧ '\n' ∉ a.password.data) ∧
  (∀ t ∈ a.transactionHistory,
    '\n' ∉ t.date.data ∧ '\n' ∉ t.type.data ∧ '\n' ∉ t.description.data) ∧
  (stod a.balance.put).toOption.isSome = true

instance decLineSafe (a : Account) : Decidable (LineSafe a) := by
  unfold LineSafe
  exact inferInstance

instance decStorable (a : Account) : Decidable (Storable a) := by
  unfold Storable
  exact inferInstance

/-- Scenario ledger on machine numbers: Alice (1001, balance 150) and Bob (1002, balance 0). -/
def aliceBob : BankingSystem :=
  { accounts := [(1001, Account.new 1001 "Alice" "p1" (Double.fin 150)),
                 (1002, Account.new 1002 "Bob" "p2" (Double.fin 0))]
    nextAccountNumber := 1003 }

end Machine

/-- Characters of the text of a `double`: those of a number and the letters of `inf` and
`nan`. -/
def putChars : List Char := numChars ++ ['i', 'n', 'f', 'a']

namespace Machine

/-- Ledger with Alice (1001, balance 10) and Bob (1002, balance 10000000000000000), as two
createAccount calls with these deposits leave it. -/
def bigLedger : BankingSystem :=
  { accounts := [(1001, Account.new 1001 "Alice" "p1" (Double.fin 10)),
                 (1002, Account.new 1002 "Bob" "p2" (Double.fin 10000000000000000))]
    nextAccountNumber := 1003 }

/-- Ledger with Alice (1001) whose balance is the `double` nearest to 0.9, as createAccount
with the deposit typed as 0.9 leaves it. -/
def pointNine : BankingSystem :=
  { accounts := [(1001, Account.new 1001 "Alice" "p1" (Double.ofRat (9 / 10)))]
    nextAccountNumber := 1002 }

/-- Ledger with Alice (1001) whose balance is the `double` nearest to 1e-320, a subnormal
value, as createAccount with the deposit typed as 1e-320 leaves it. -/
def tinyLedger : BankingSystem :=
  { accounts := [(1001, Account.new 1001 "Alice" "p1" (Double.ofRat (1 / 10 ^ 320)))]
    nextAccountNumber := 1002 }

/-- Backing file whose first account line carries the balance text `nan`. -/
def nanFile : List Char := "1003\n2\n1001,Alice,p1,nan\n1002,Bob,p2,0\n".data

/-- Ledger that loadAccounts builds from `nanFile`: Alice (1001) with a NaN balance and Bob
(1002) with balance 0. -/
def nanLedger : BankingSystem :=
  { accounts := [(1001, Account.new 1001 "Alice" "p1" (Double.nan false)),
                 (1002, Account.new 1002 "Bob" "p2" (Double.fin 0))]
    nextAccountNumber := 1003 }

end Machine

/-! ## Lemmas on the account map -/

namespace AccountMap

theorem find_modify_same (m : AccountMap) (k : Int) (f : Account → Account) :
    (m.modify k f).find k = (m.find k).map f := by
  induction m with
  | nil => rfl
  | cons p rest ih =>
    obtain ⟨k', a⟩ := p
    by_cases h : k' = k
    · simp [modify, find, h]
    · simp [modify, find, h, ih]

theorem find_modify_ne (m : AccountMap) {k k' : Int} (hne : k ≠ k') (f : Account → Account) :
    (m.modify k f).find k' = m.find k' := by
  induction m with
  | nil => rfl
  | cons p rest ih =>
    obtain ⟨k'', a⟩ := p
    by_cases h : k'' = k
    · subst h
      simp [modify, find, hne]
    · by_cases h2 : k'' = k'
      · subst h2
        simp [modify, find, h]
      · simp [modify, find, h, h2, ih]

theorem keys_modify (m : AccountMap) (k : Int) (f : Account → Account) :
    (m.modify k f).keys = m.keys := by
  induction m with
  | nil => rfl
  | cons p rest ih =>
    obtain ⟨k', a⟩ := p
    by_cases h : k' = k
    · simp [modify, keys, h]
    · simp only [keys] at ih
      simp [modify, keys, h, ih]

theorem find_eq_none_iff (m : AccountMap) (k : Int) : m.find k = none ↔ k ∉ m.keys := by
  induction m with
  | nil => simp [find, keys]
  | cons p rest ih =>
    obtain ⟨k', a⟩ := p
    simp only [keys] at ih
    by_cases h : k' = k
    · simp [find, keys, h]
    · simp [find, keys, h, ih, Ne.symm h]

theorem mem_of_find {m : AccountMap} {k : Int} {a : Account} (h : m.find k = some a) :
    (k, a) ∈ m := by
  induction m with
  | nil => simp [find] at h
  | cons p rest ih =>
    obtain ⟨k', b⟩ := p
    by_cases hk : k' = k
    · simp [find, hk] at h
      simp [hk, h]
    · simp only [find, hk, if_false] at h
      exact List.mem_cons_of_mem _ (ih h)

theorem find_emplace_self (m : AccountMap) (k : Int) (a : Account) (h : k ∉ m.keys) :
    (m.emplace k a).find k = some a := by
  induction m with
  | nil => simp [emplace, find]
  | cons p rest ih =>
    obtain ⟨k', b⟩ := p
    simp only [keys, List.map_cons, List.mem_cons, not_or] at h
    by_cases h1 : k < k'
    · simp [emplace, find, h1]
    · simp only [emplace, h1, if_false, h.1]
      simp only [find, Ne.symm h.1, if_false]
      exact ih h.2

theorem find_emplace_ne (m : AccountMap) {k k' : Int} (a : Account) (hne : k ≠ k') :
    (m.emplace k a).find k' = m.find k' := by
  induction m with
  | nil => simp [emplace, find, hne]
  | cons p rest ih =>
    obtain ⟨k'', b⟩ := p
    by_cases h1 : k < k''
    · simp [emplace, find, h1, hne]
    · by_cases h2 : k = k''
      · simp [emplace, h1, h2]
      · by_cases h3 : k'' = k'
        · subst h3
          simp [emplace, find, h1, h2]
        · simp [emplace, find, h1, h2, h3, ih]

theorem emplace_eq_append (m : AccountMap) (k : Int) (a : Account)
    (h : ∀ x ∈ m.keys, x < k) : m.emplace k a = m ++ [(k, a)] := by
  induction m with
  | nil => rfl
  | cons p rest ih =>
    obtain ⟨k', b⟩ := p
    have hk : k' < k := h k' (by simp [keys])
    have h1 : ¬ k < k' := not_lt.mpr hk.le
    have h2 : ¬ k = k' := fun e => by omega
    have := ih (fun x hx => h x (by simp only [keys] at hx ⊢; simp [hx]))
    simp [emplace, h1, h2, this]

theorem mem_modify {m : AccountMap} {k : Int} {f : Account → Account} {p : Int × Account}
    (h : p ∈ m.modify k f) : p ∈ m ∨ ∃ a, (k, a) ∈ m ∧ p = (k, f a) := by
  induction m with
  | nil => simp [modify] at h
  | cons q rest ih =>
    obtain ⟨k', b⟩ := q
    by_cases hk : k' = k
    · simp only [modify, hk, if_true, List.mem_cons] at h
      rcases h with h | h
      · exact Or.inr ⟨b, by simp [hk], h⟩
      · exact Or.inl (List.mem_cons_of_mem _ h)
    · simp only [modify, hk, if_false, List.mem_cons] at h
      rcases h with h | h
      · exact Or.inl (by simp [h])
      · rcases ih h with h | ⟨a, ha, hp⟩
        · exact Or.inl (List.mem_cons_of_mem _ h)
        · exact Or.inr ⟨a, List.mem_cons_of_mem _ ha, hp⟩

end AccountMap

/-! ## Lemmas on transfer -/

theorem withdraw_ok (a : Account) (amt : ℚ) (now : String) (hpos : 0 < amt)
    (hbal : amt ≤ a.balance) :
    a.withdraw amt now = (true, { a with
      balance := a.balance - amt
      transactionHistory := a.transactionHistory ++
        [Transaction.new now "DEBIT" amt "Withdrawal" (a.balance - amt)] }) := by
  simp [Account.withdraw, hpos, hbal]

theorem deposit_ok (a : Account) (amt : ℚ) (now : String) (hpos : 0 < amt) :
    a.deposit amt now = (true, { a with
      balance := a.balance + amt
      transactionHistory := a.transactionHistory ++
        [Transaction.new now "CREDIT" amt "Deposit" (a.balance + amt)] }) := by
  simp [Account.deposit, hpos]

theorem transfer_ok_eq (s : BankingSystem) (f t : Int) (amt : ℚ) (d1 d2 d3 d4 : String)
    (A B : Account) (hA : s.getAccount f = some A) (hB : s.getAccount t = some B)
    (hpos : 0 < amt) (hbal : amt ≤ A.balance) :
    s.transfer f t amt d1 d2 d3 d4 = ((true, "Transfer successful"),
      { s with accounts :=
        ((((s.accounts.modify f (fun a => (a.withdraw amt d1).2)).modify t
          (fun a => (a.deposit amt d2).2)).modify f
          (fun a => a.addTransferTransaction false amt t d3)).modify t
          (fun a => a.addTransferTransaction true amt f d4)) }) := by
  have h1 : ¬ amt ≤ 0 := not_le.mpr hpos
  have h2 : ¬ A.balance < amt := not_lt.mpr hbal
  simp [BankingSystem.transfer, hA, hB, h1, h2, withdraw_ok A amt d1 hpos hbal]

theorem transfer_ok_accounts (s : BankingSystem) (f t : Int) (amt : ℚ) (d1 d2 d3 d4 : String)
    (A B : Account) (hA : s.getAccount f = some A) (hB : s.getAccount t = some B)
    (hne : f ≠ t) (hpos : 0 < amt) (hbal : amt ≤ A.balance) :
    (s.transfer f t amt d1 d2 d3 d4).1 = (true, "Transfer successful") ∧
    (s.transfer f t amt d1 d2 d3 d4).2.getAccount f =
      some (((A.withdraw amt d1).2).addTransferTransaction false amt t d3) ∧
    (s.transfer f t amt d1 d2 d3 d4).2.getAccount t =
      some (((B.deposit amt d2).2).addTransferTransaction true amt f d4) := by
  rw [transfer_ok_eq s f t amt d1 d2 d3 d4 A B hA hB hpos hbal]
  simp only [BankingSystem.getAccount] at hA hB ⊢
  refine ⟨trivial, ?_, ?_⟩
  · rw [AccountMap.find_modify_ne _ (Ne.symm hne), AccountMap.find_modify_same,
      AccountMap.find_modify_ne _ (Ne.symm hne), AccountMap.find_modify_same, hA]
    rfl
  · rw [AccountMap.find_modify_same, AccountMap.find_modify_ne _ hne,
      AccountMap.find_modify_same, AccountMap.find_modify_ne _ hne, hB]
    rfl

theorem transfer_cases (s : BankingSystem) (f t : Int) (amt : ℚ) (d1 d2 d3 d4 : String) :
    (s.transfer f t amt d1 d2 d3 d4).2 = s ∨
    (s.transfer f t amt d1 d2 d3 d4).2 = { s with accounts :=
        ((((s.accounts.modify f (fun a => (a.withdraw amt d1).2)).modify t
          (fun a => (a.deposit amt d2).2)).modify f
          (fun a => a.addTransferTransaction false amt t d3)).modify t
          (fun a => a.addTransferTransaction true amt f d4)) } := by
  cases hf : s.getAccount f with
  | none => simp [BankingSystem.transfer, hf]
  | some A =>
    cases ht : s.getAccount t with
    | none => simp [BankingSystem.transfer, hf, ht]
    | some B =>
      by_cases h1 : amt ≤ 0
      · simp [BankingSystem.transfer, hf, ht, h1]
      · by_cases h2 : A.balance < amt
        · simp [BankingSystem.transfer, hf, ht, h1, h2]
        · right
          rw [transfer_ok_eq s f t amt d1 d2 d3 d4 A B hf ht (not_le.mp h1) (not_lt.mp h2)]

/-! ## Lemmas on the ledger invariant -/

theorem inv_init : Inv BankingSystem.init := by
  simp [Inv, BankingSystem.init, AccountMap.keys]

theorem inv_modify (s : BankingSystem) (k : Int) (f : Account → Account) (h : Inv s)
    (hf : ∀ a, (f a).accountNumber = a.accountNumber) :
    Inv { s with accounts := s.accounts.modify k f } := by
  obtain ⟨h1, h2, h3, h4⟩ := h
  refine ⟨?_, ?_, ?_, h4⟩
  · simpa [AccountMap.keys_modify] using h1
  · simpa [AccountMap.keys_modify] using h2
  · intro p hp
    rcases AccountMap.mem_modify hp with hp | ⟨a, ha, rfl⟩
    · exact h3 p hp
    · simpa [hf] using h3 _ ha

theorem deposit_accountNumber (a : Account) (amt : ℚ) (now : String) :
    (a.deposit amt now).2.accountNumber = a.accountNumber := by
  unfold Account.deposit
  split <;> rfl

theorem withdraw_accountNumber (a : Account) (amt : ℚ) (now : String) :
    (a.withdraw amt now).2.accountNumber = a.accountNumber := by
  unfold Account.withdraw
  split <;> rfl

theorem inv_createAccount (s : BankingSystem) (n p : String) (d : ℚ) (h : Inv s) :
    Inv (s.createAccount n p d).2 := by
  unfold BankingSystem.createAccount
  split
  · exact h
  · obtain ⟨h1, h2, h3, h4⟩ := h
    have hlt : ∀ x ∈ AccountMap.keys s.accounts, x < s.nextAccountNumber := fun x hx => (h2 x hx).2
    have happ := AccountMap.emplace_eq_append s.accounts s.nextAccountNumber
      (Account.new s.nextAccountNumber n p d) hlt
    simp only [Inv, happ]
    refine ⟨?_, ?_, ?_, by omega⟩
    · simp only [AccountMap.keys, List.map_append, List.map_cons, List.map_nil]
      rw [List.pairwise_append]
      refine ⟨h1, List.pairwise_singleton _ _, ?_⟩
      intro a ha b hb
      simp only [List.mem_singleton] at hb
      subst hb
      exact hlt a ha
    · intro k hk
      simp only [AccountMap.keys, List.map_append, List.map_cons, List.map_nil, List.mem_append,
        List.mem_singleton] at hk
      rcases hk with hk | hk
      · have := h2 k hk
        omega
      · omega
    · intro q hq
      simp only [List.mem_append, List.mem_singleton] at hq
      rcases hq with hq | hq
      · exact h3 q hq
      · subst hq
        rfl

theorem inv_step (s : BankingSystem) (op : Op) (h : Inv s) : Inv (step s op) := by
  cases op with
  | createAccount n p d => exact inv_createAccount s n p d h
  | deposit k amt now =>
    simp only [step, BankingSystem.depositAt]
    split
    · exact inv_modify s k _ h (fun a => deposit_accountNumber a amt now)
    · exact h
  | withdraw k amt now =>
    simp only [step, BankingSystem.withdrawAt]
    split
    · exact inv_modify s k _ h (fun a => withdraw_accountNumber a amt now)
    · exact h
  | transfer f t amt d1 d2 d3 d4 =>
    simp only [step]
    rcases transfer_cases s f t amt d1 d2 d3 d4 with e | e
    · rw [e]; exact h
    · rw [e]
      have a1 := inv_modify s f _ h (fun a => withdraw_accountNumber a amt d1)
      have a2 := inv_modify _ t _ a1 (fun a => deposit_accountNumber a amt d2)
      have a3 := inv_modify _ f (fun a => a.addTransferTransaction false amt t d3) a2
        (fun a => rfl)
      exact inv_modify _ t (fun a => a.addTransferTransaction true amt f d4) a3 (fun a => rfl)

theorem inv_run (s : BankingSystem) (ops : List Op) (h : Inv s) : Inv (run s ops) := by
  induction ops generalizing s with
  | nil => exact h
  | cons op ops ih => exact ih (step s op) (inv_step s op h)

/-! ## Lemmas on the balance equation -/

theorem transfer_from_ne_deposit (x : String) : "Transfer from " ++ x ≠ "Deposit" := by
  intro h
  have h2 := congrArg String.data h
  simp at h2

theorem transfer_to_ne_withdrawal (x : String) : "Transfer to " ++ x ≠ "Withdrawal" := by
  intro h
  have h2 := congrArg String.data h
  simp at h2

theorem sumOfTypeDesc_append (ty ds : String) (h : List Transaction) (t : Transaction) :
    sumOfTypeDesc ty ds (h ++ [t]) =
      sumOfTypeDesc ty ds h + (if t.type = ty ∧ t.description = ds then t.amount else 0) := by
  unfold sumOfTypeDesc
  by_cases c : t.type = ty ∧ t.description = ds
  · simp [List.filter_append, List.filter_cons, c]
  · simp [List.filter_append, List.filter_cons, c]

theorem balanced_deposit (d : ℚ) (a : Account) (amt : ℚ) (now : String) (h : Balanced d a) :
    Balanced d (a.deposit amt now).2 := by
  unfold Account.deposit
  split
  · simp only [Balanced, sumOfTypeDesc_append, Transaction.new] at h ⊢
    simp
    rw [h]
    ring
  · exact h

theorem balanced_withdraw (d : ℚ) (a : Account) (amt : ℚ) (now : String) (h : Balanced d a) :
    Balanced d (a.withdraw amt now).2 := by
  unfold Account.withdraw
  split
  · simp only [Balanced, sumOfTypeDesc_append, Transaction.new] at h ⊢
    simp
    rw [h]
    ring
  · exact h

theorem balanced_leg (d : ℚ) (a : Account) (isCredit : Bool) (amt : ℚ) (k : Int) (now : String)
    (h : Balanced d a) : Balanced d (a.addTransferTransaction isCredit amt k now) := by
  cases isCredit
  · simp only [Balanced, Account.addTransferTransaction, sumOfTypeDesc_append,
      Transaction.new] at h ⊢
    simp [transfer_to_ne_withdrawal, h]
  · simp only [Balanced, Account.addTransferTransaction, sumOfTypeDesc_append,
      Transaction.new] at h ⊢
    simp [transfer_from_ne_deposit, h]

theorem balanced_modify (s : BankingSystem) (k k' : Int) (d : ℚ) (f : Account → Account)
    (hf : ∀ a, Balanced d a → Balanced d (f a))
    (h : ∃ a, s.accounts.find k = some a ∧ Balanced d a) :
    ∃ a, (s.accounts.modify k' f).find k = some a ∧ Balanced d a := by
  obtain ⟨a, ha, hb⟩ := h
  by_cases e : k' = k
  · subst e
    exact ⟨f a, by simp [AccountMap.find_modify_same, ha], hf a hb⟩
  · exact ⟨a, by simp [AccountMap.find_modify_ne _ e, ha], hb⟩

theorem balanced_step (s : BankingSystem) (op : Op) (k : Int) (d : ℚ) (hInv : Inv s)
    (h : ∃ a, s.accounts.find k = some a ∧ Balanced d a) :
    ∃ a, (step s op).accounts.find k = some a ∧ Balanced d a := by
  cases op with
  | createAccount n p e =>
    simp only [step, BankingSystem.createAccount]
    split
    · exact h
    · obtain ⟨a, ha, hb⟩ := h
      have hk : k ∈ AccountMap.keys s.accounts := by
        by_contra hc
        rw [← AccountMap.find_eq_none_iff, ha] at hc
        exact Option.noConfusion hc
      have hne : s.nextAccountNumber ≠ k := by
        have := (hInv.2.1 k hk).2
        omega
      exact ⟨a, by simp [AccountMap.find_emplace_ne _ _ hne, ha], hb⟩
  | deposit k' amt now =>
    simp only [step, BankingSystem.depositAt]
    split
    · exact balanced_modify s k k' d _ (fun a ha => balanced_deposit d a amt now ha) h
    · exact h
  | withdraw k' amt now =>
    simp only [step, BankingSystem.withdrawAt]
    split
    · exact balanced_modify s k k' d _ (fun a ha => balanced_withdraw d a amt now ha) h
    · exact h
  | transfer f t amt d1 d2 d3 d4 =>
    simp only [step]
    rcases transfer_cases s f t amt d1 d2 d3 d4 with e | e
    · rw [e]; exact h
    · rw [e]
      have a1 := balanced_modify s k f d _ (fun a ha => balanced_withdraw d a amt d1 ha) h
      have a2 := balanced_modify { s with accounts := _ } k t d _
        (fun a ha => balanced_deposit d a amt d2 ha) a1
      have a3 := balanced_modify { s with accounts := _ } k f d _
        (fun a ha => balanced_leg d a false amt t d3 ha) a2
      exact balanced_modify { s with accounts := _ } k t d _
        (fun a ha => balanced_leg d a true amt f d4 ha) a3

theorem balanced_run (s : BankingSystem) (ops : List Op) (k : Int) (d : ℚ) (hInv : Inv s)
    (h : ∃ a, s.accounts.find k = some a ∧ Balanced d a) :
    ∃ a, (run s ops).accounts.find k = some a ∧ Balanced d a := by
  induction ops generalizing s with
  | nil => exact h
  | cons op ops ih => exact ih (step s op) (inv_step s op hInv) (balanced_step s op k d hInv h)

theorem createAccount_find_new (s : BankingSystem) (n p : String) (d : ℚ) (hInv : Inv s)
    (hd : ¬ d < 0) :
    (s.createAccount n p d).2.accounts.find s.nextAccountNumber =
      some (Account.new s.nextAccountNumber n p d) := by
  have hnot : s.nextAccountNumber ∉ AccountMap.keys s.accounts := by
    intro hk
    have := (hInv.2.1 _ hk).2
    omega
  simp [BankingSystem.createAccount, hd, AccountMap.find_emplace_self _ _ _ hnot]

/-! ## Further lemmas on transfer -/

theorem transfer_result_eq (s : BankingSystem) (f t : Int) (amt : ℚ) (d1 d2 d3 d4 : String) :
    (s.transfer f t amt d1 d2 d3 d4).1 =
      match s.getAccount f, s.getAccount t with
      | some A, some _ =>
        if amt ≤ 0 then (false, "Invalid amount")
        else if A.balance < amt then (false, "Insufficient balance")
        else (true, "Transfer successful")
      | _, _ => (false, "Invalid account number(s)") := by
  cases hf : s.getAccount f with
  | none => simp [BankingSystem.transfer, hf]
  | some A =>
    cases ht : s.getAccount t with
    | none => simp [BankingSystem.transfer, hf, ht]
    | some B =>
      by_cases h1 : amt ≤ 0
      · simp [BankingSystem.transfer, hf, ht, h1]
      · by_cases h2 : A.balance < amt
        · simp [BankingSystem.transfer, hf, ht, h1, h2]
        · rw [transfer_ok_eq s f t amt d1 d2 d3 d4 A B hf ht (not_le.mp h1) (not_lt.mp h2)]
          simp [h1, h2]

theorem transfer_true_cond (s : BankingSystem) (f t : Int) (amt : ℚ) (d1 d2 d3 d4 : String)
    (h : (s.transfer f t amt d1 d2 d3 d4).1.1 = true) :
    ∃ A B, s.getAccount f = some A ∧ s.getAccount t = some B ∧ 0 < amt ∧ amt ≤ A.balance := by
  rw [transfer_result_eq] at h
  cases hf : s.getAccount f with
  | none => simp [hf] at h
  | some A =>
    cases ht : s.getAccount t with
    | none => simp [hf, ht] at h
    | some B =>
      by_cases h1 : amt ≤ 0
      · simp [hf, ht, h1] at h
      · by_cases h2 : A.balance < amt
        · simp [hf, ht, h1, h2] at h
        · exact ⟨A, B, rfl, rfl, not_le.mp h1, not_lt.mp h2⟩

theorem transfer_cases_pos (s : BankingSystem) (f t : Int) (amt : ℚ) (d1 d2 d3 d4 : String) :
    (s.transfer f t amt d1 d2 d3 d4).2 = s ∨
    (0 < amt ∧ (s.transfer f t amt d1 d2 d3 d4).2 = { s with accounts :=
        ((((s.accounts.modify f (fun a => (a.withdraw amt d1).2)).modify t
          (fun a => (a.deposit amt d2).2)).modify f
          (fun a => a.addTransferTransaction false amt t d3)).modify t
          (fun a => a.addTransferTransaction true amt f d4)) }) := by
  cases hf : s.getAccount f with
  | none => simp [BankingSystem.transfer, hf]
  | some A =>
    cases ht : s.getAccount t with
    | none => simp [BankingSystem.transfer, hf, ht]
    | some B =>
      by_cases h1 : amt ≤ 0
      · simp [BankingSystem.transfer, hf, ht, h1]
      · by_cases h2 : A.balance < amt
        · simp [BankingSystem.transfer, hf, ht, h1, h2]
        · right
          rw [transfer_ok_eq s f t amt d1 d2 d3 d4 A B hf ht (not_le.mp h1) (not_lt.mp h2)]
          exact ⟨not_le.mp h1, rfl⟩

theorem find_modify_pred (P : Account → Prop) (m : AccountMap) (k k' : Int)
    (f : Account → Account) (hf : ∀ x, P x → P (f x))
    (h : ∃ a, m.find k = some a ∧ P a) :
    ∃ a, (m.modify k' f).find k = some a ∧ P a := by
  obtain ⟨a, ha, hb⟩ := h
  by_cases e : k' = k
  · subst e
    exact ⟨f a, by simp [AccountMap.find_modify_same, ha], hf a hb⟩
  · exact ⟨a, by simp [AccountMap.find_modify_ne _ e, ha], hb⟩

theorem find_step_pred (P : Account → Prop)
    (hdep : ∀ x amt now, P x → P (x.deposit amt now).2)
    (hwd : ∀ x amt now, P x → P (x.withdraw amt now).2)
    (hleg : ∀ x c amt j now, 0 < amt → P x → P (x.addTransferTransaction c amt j now))
    (s : BankingSystem) (op : Op) (k : Int) (hInv : Inv s)
    (h : ∃ a, s.accounts.find k = some a ∧ P a) :
    ∃ a, (step s op).accounts.find k = some a ∧ P a := by
  cases op with
  | createAccount n p e =>
    simp only [step, BankingSystem.createAccount]
    split
    · exact h
    · obtain ⟨a, ha, hb⟩ := h
      have hk : k ∈ AccountMap.keys s.accounts := by
        by_contra hc
        rw [← AccountMap.find_eq_none_iff, ha] at hc
        exact Option.noConfusion hc
      have hne : s.nextAccountNumber ≠ k := by
        have := (hInv.2.1 k hk).2
        omega
      exact ⟨a, by simp [AccountMap.find_emplace_ne _ _ hne, ha], hb⟩
  | deposit k' amt now =>
    simp only [step, BankingSystem.depositAt]
    split
    · exact find_modify_pred P _ k k' _ (fun x hx => hdep x amt now hx) h
    · exact h
  | withdraw k' amt now =>
    simp only [step, BankingSystem.withdrawAt]
    split
    · exact find_modify_pred P _ k k' _ (fun x hx => hwd x amt now hx) h
    · exact h
  | transfer f t amt d1 d2 d3 d4 =>
    simp only [step]
    rcases transfer_cases_pos s f t amt d1 d2 d3 d4 with e | ⟨hpos, e⟩
    · rw [e]; exact h
    · rw [e]
      have a1 := find_modify_pred P _ k f _ (fun x hx => hwd x amt d1 hx) h
      have a2 := find_modify_pred P _ k t _ (fun x hx => hdep x amt d2 hx) a1
      have a3 := find_modify_pred P _ k f _
        (fun x hx => hleg x false amt t d3 hpos hx) a2
      exact find_modify_pred P _ k t _ (fun x hx => hleg x true amt f d4 hpos hx) a3

theorem find_run_pred (P : Account → Prop)
    (hdep : ∀ x amt now, P x → P (x.deposit amt now).2)
    (hwd : ∀ x amt now, P x → P (x.withdraw amt now).2)
    (hleg : ∀ x c amt j now, 0 < amt → P x → P (x.addTransferTransaction c amt j now))
    (s : BankingSystem) (ops : List Op) (k : Int) (hInv : Inv s)
    (h : ∃ a, s.accounts.find k = some a ∧ P a) :
    ∃ a, (run s ops).accounts.find k = some a ∧ P a := by
  induction ops generalizing s with
  | nil => exact h
  | cons op ops ih =>
    exact ih (step s op) (inv_step s op hInv) (find_step_pred P hdep hwd hleg s op k hInv h)

/-! ## Lemmas on the history invariant -/

theorem historyOK_append (d : ℚ) (a : Account) (b : ℚ) (r : Transaction) (h : HistoryOK d a)
    (hamt : 0 < r.amount) (hb : r.balanceAfter = b)
    (hbal : b = balanceAt d (a.transactionHistory ++ [r])) :
    HistoryOK d { a with balance := b, transactionHistory := a.transactionHistory ++ [r] } := by
  obtain ⟨h1, _, h3⟩ := h
  refine ⟨?_, hbal, ?_⟩
  · intro x hx
    simp only [List.mem_append, List.mem_singleton] at hx
    rcases hx with hx | hx
    · exact h1 x hx
    · rw [hx]; exact hamt
  · intro p x q hpq
    rcases List.eq_nil_or_concat q with hq | ⟨q', y, hq⟩
    · subst hq
      have e : a.transactionHistory ++ [r] = p ++ [x] := hpq
      obtain ⟨e1, e2⟩ := List.append_inj' e rfl
      simp only [List.cons.injEq, and_true] at e2
      rw [← e1, ← e2, hb, hbal]
    · subst hq
      have e : a.transactionHistory ++ [r] = (p ++ x :: q') ++ [y] := by
        have e0 : a.transactionHistory ++ [r] = p ++ x :: q'.concat y := hpq
        rw [e0, List.concat_eq_append]
        simp
      obtain ⟨e1, _⟩ := List.append_inj' e rfl
      exact h3 p x q' e1

theorem historyOK_deposit (d : ℚ) (a : Account) (amt : ℚ) (now : String) (h : HistoryOK d a) :
    HistoryOK d (a.deposit amt now).2 := by
  unfold Account.deposit
  split
  · next hp =>
    refine historyOK_append d a _ _ h hp rfl ?_
    simp only [balanceAt, sumOfTypeDesc_append, Transaction.new]
    rw [h.2.1]
    simp [balanceAt]
    ring
  · exact h

theorem historyOK_withdraw (d : ℚ) (a : Account) (amt : ℚ) (now : String) (h : HistoryOK d a) :
    HistoryOK d (a.withdraw amt now).2 := by
  unfold Account.withdraw
  split
  · next hp =>
    refine historyOK_append d a _ _ h hp.1 rfl ?_
    simp only [balanceAt, sumOfTypeDesc_append, Transaction.new]
    rw [h.2.1]
    simp [balanceAt]
    ring
  · exact h

theorem historyOK_leg (d : ℚ) (a : Account) (c : Bool) (amt : ℚ) (j : Int) (now : String)
    (hpos : 0 < amt) (h : HistoryOK d a) :
    HistoryOK d (a.addTransferTransaction c amt j now) := by
  have key := historyOK_append d a a.balance
    (Transaction.new now (if c then "CREDIT" else "DEBIT") amt
      (if c then "Transfer from " ++ to_string j else "Transfer to " ++ to_string j) a.balance)
    h hpos rfl
  apply key
  rw [h.2.1]
  cases c
  · simp [balanceAt, sumOfTypeDesc_append, Transaction.new, transfer_to_ne_withdrawal]
  · simp [balanceAt, sumOfTypeDesc_append, Transaction.new, transfer_from_ne_deposit]

theorem historyOK_last (d : ℚ) (a : Account) (h : HistoryOK d a) (r : Transaction)
    (hr : a.transactionHistory.getLast? = some r) : r.balanceAfter = a.balance := by
  rcases List.eq_nil_or_concat a.transactionHistory with e | ⟨p, x, e⟩
  · rw [e] at hr
    simp at hr
  · rw [List.concat_eq_append] at e
    rw [e] at hr
    simp at hr
    subst hr
    have := h.2.2 p x [] e
    rw [this, h.2.1, e]

theorem appendsCurrent_deposit (x : Account) (amt : ℚ) (now : String) :
    AppendsCurrent x (x.deposit amt now).2 := by
  unfold Account.deposit
  split
  · exact Or.inr ⟨_, rfl, rfl⟩
  · exact Or.inl rfl

theorem appendsCurrent_withdraw (x : Account) (amt : ℚ) (now : String) :
    AppendsCurrent x (x.withdraw amt now).2 := by
  unfold Account.withdraw
  split
  · exact Or.inr ⟨_, rfl, rfl⟩
  · exact Or.inl rfl

/-! ## Lemmas on exception results -/

theorem digitChar_mem (n : Nat) : digitChar n ∈ digitChars := by
  unfold digitChar
  split <;> decide

theorem digitChars_props : ∀ c ∈ digitChars,
    c.isDigit = true ∧ isSpace c = false ∧ c ≠ ',' ∧ c ≠ '\n' ∧ c ≠ '-' ∧ c ≠ '+' ∧
    c.toLower = c ∧ c ∈ numChars := by
  decide

theorem numChars_props : ∀ c ∈ numChars,
    isSpace c = false ∧ c ≠ ',' ∧ c ≠ '\n' ∧ c.toLower ≠ 'x' := by
  decide

theorem digitVal_digitChar (d : Nat) (h : d < 10) : digitVal (digitChar d) = d := by
  interval_cases d <;> rfl

theorem natDigits_append (fuel n : Nat) (acc : List Char) :
    natDigits fuel n acc = natDigits fuel n [] ++ acc := by
  induction fuel generalizing n acc with
  | zero => simp [natDigits]
  | succ fuel ih =>
    by_cases h : n < 10
    · simp [natDigits, h]
    · simp only [natDigits, h, if_false]
      rw [ih (n / 10) (digitChar (n % 10) :: acc), ih (n / 10) [digitChar (n % 10)]]
      simp

theorem natDigits_mem (fuel n : Nat) : ∀ c ∈ natDigits fuel n [], c ∈ digitChars := by
  induction fuel generalizing n with
  | zero => simp [natDigits]
  | succ fuel ih =>
    intro c hc
    by_cases h : n < 10
    · simp only [natDigits, h, if_true, List.mem_singleton] at hc
      rw [hc]
      exact digitChar_mem n
    · simp only [natDigits, h, if_false] at hc
      rw [natDigits_append] at hc
      simp only [List.mem_append, List.mem_singleton] at hc
      rcases hc with hc | hc
      · exact ih _ c hc
      · rw [hc]
        exact digitChar_mem _

theorem natToChars_mem (n : Nat) : ∀ c ∈ natToChars n, c ∈ digitChars :=
  natDigits_mem (n + 1) n

theorem natToChars_ne_nil (n : Nat) : natToChars n ≠ [] := by
  unfold natToChars
  by_cases h : n < 10
  · simp [natDigits, h]
  · simp only [natDigits, h, if_false]
    rw [natDigits_append]
    simp

theorem natDigits_succ (fuel n : Nat) (acc : List Char) :
    natDigits (fuel + 1) n acc = if n < 10 then digitChar n :: acc
      else natDigits fuel (n / 10) (digitChar (n % 10) :: acc) := rfl

theorem digitsVal_cons (acc : Nat) (c : Char) (cs : List Char) :
    digitsVal acc (c :: cs) = digitsVal (10 * acc + digitVal c) cs := rfl

theorem digitsVal_append (acc : Nat) (xs : List Char) (c : Char) :
    digitsVal acc (xs ++ [c]) = 10 * digitsVal acc xs + digitVal c := by
  induction xs generalizing acc with
  | nil => rfl
  | cons x xs ih =>
    rw [List.cons_append, digitsVal_cons, digitsVal_cons]
    exact ih _

theorem digitsVal_natDigits (fuel n : Nat) (h : n < fuel) :
    digitsVal 0 (natDigits fuel n []) = n := by
  induction fuel generalizing n with
  | zero => omega
  | succ fuel ih =>
    by_cases h10 : n < 10
    · rw [natDigits_succ, if_pos h10]
      show 10 * 0 + digitVal (digitChar n) = n
      rw [digitVal_digitChar n h10]
      omega
    · rw [natDigits_succ, if_neg h10, natDigits_append, digitsVal_append,
        ih (n / 10) (by omega), digitVal_digitChar _ (Nat.mod_lt _ (by norm_num))]
      omega

theorem digitsVal_natToChars (n : Nat) : digitsVal 0 (natToChars n) = n :=
  digitsVal_natDigits (n + 1) n (Nat.lt_succ_self n)

theorem takeWhile_digits (xs rest : List Char) (hx : ∀ c ∈ xs, c ∈ digitChars)
    (hr : ∀ c, rest.head? = some c → c.isDigit = false) :
    (xs ++ rest).takeWhile Char.isDigit = xs ∧ (xs ++ rest).dropWhile Char.isDigit = rest := by
  induction xs with
  | nil =>
    cases rest with
    | nil => simp
    | cons c cs =>
      have := hr c rfl
      simp [List.takeWhile, List.dropWhile, this]
  | cons x xs ih =>
    have hd := (digitChars_props x (hx x (by simp))).1
    have := ih (fun c hc => hx c (by simp [hc]))
    simp [List.takeWhile, List.dropWhile, hd, this]

theorem takeSign_digit (c : Char) (cs : List Char) (h : c ∈ digitChars) :
    takeSign (c :: cs) = (false, c :: cs) := by
  have hp := digitChars_props c h
  unfold takeSign
  split
  · next heq =>
    simp only [List.cons.injEq] at heq
    exact absurd heq.1 hp.2.2.2.2.1
  · next heq =>
    simp only [List.cons.injEq] at heq
    exact absurd heq.1 hp.2.2.2.2.2.1
  · rfl

theorem intToChars_mem (k : Int) : ∀ c ∈ intToChars k, c ∈ numChars := by
  intro c hc
  unfold intToChars at hc
  split at hc
  · simp only [List.mem_cons] at hc
    rcases hc with hc | hc
    · rw [hc]; decide
    · exact (digitChars_props c (natToChars_mem _ c hc)).2.2.2.2.2.2.2
  · exact (digitChars_props c (natToChars_mem _ c hc)).2.2.2.2.2.2.2

theorem mem_stripZeros (ds : List Char) (c : Char) (h : c ∈ stripZeros ds) : c ∈ ds := by
  unfold stripZeros at h
  rw [List.mem_reverse] at h
  exact List.mem_reverse.mp ((List.dropWhile_suffix _).subset h)

theorem padZeros_mem (k : Nat) (ds : List Char) (h : ∀ c ∈ ds, c ∈ digitChars) :
    ∀ c ∈ padZeros k ds, c ∈ digitChars := by
  intro c hc
  unfold padZeros at hc
  rw [List.mem_append] at hc
  rcases hc with hc | hc
  · rw [List.eq_of_mem_replicate hc]
    decide
  · exact h c hc

theorem digit_num (c : Char) (h : c ∈ digitChars) : c ∈ numChars :=
  (digitChars_props c h).2.2.2.2.2.2.2

theorem formatPos_mem (n d : Nat) : ∀ c ∈ formatPos n d, c ∈ numChars := by
  intro c hc
  unfold formatPos at hc
  generalize sixDigits n d = mx at hc
  obtain ⟨m, x⟩ := mx
  dsimp only at hc
  have hds : ∀ c ∈ natToChars m, c ∈ numChars := fun c h => digit_num c (natToChars_mem m c h)
  split at hc
  · simp only [List.mem_append, List.mem_cons] at hc
    rcases hc with (hc | hc) | hc | hc | hc
    · exact hds c (List.mem_of_mem_take hc)
    · split at hc
      · simp at hc
      · simp only [List.mem_cons] at hc
        rcases hc with hc | hc
        · rw [hc]; decide
        · exact hds c (List.mem_of_mem_drop (mem_stripZeros _ c hc))
    · rw [hc]; decide
    · rw [hc]; split <;> decide
    · exact digit_num c (padZeros_mem 2 _ (natToChars_mem _) c hc)
  · split at hc
    · simp only [List.mem_append] at hc
      rcases hc with hc | hc
      · exact hds c (List.mem_of_mem_take hc)
      · split at hc
        · simp at hc
        · simp only [List.mem_cons] at hc
          rcases hc with hc | hc
          · rw [hc]; decide
          · exact hds c (List.mem_of_mem_drop (mem_stripZeros _ c hc))
    · simp only [List.mem_cons, List.mem_append] at hc
      rcases hc with hc | hc | hc | hc
      · rw [hc]; decide
      · rw [hc]; decide
      · rw [List.eq_of_mem_replicate hc]; decide
      · exact hds c (mem_stripZeros _ c hc)

theorem doubleToChars_mem (q : ℚ) : ∀ c ∈ doubleToChars q, c ∈ numChars := by
  intro c hc
  unfold doubleToChars at hc
  split at hc
  · simp only [List.mem_singleton] at hc
    rw [hc]; decide
  · split at hc
    · simp only [List.mem_cons] at hc
      rcases hc with hc | hc
      · rw [hc]; decide
      · exact formatPos_mem _ _ c hc
    · exact formatPos_mem _ _ c hc

theorem to_string_double_mem (q : ℚ) : ∀ c ∈ (to_string_double q).data, c ∈ numChars := by
  intro c hc
  unfold to_string_double at hc
  simp only [List.mem_append, List.mem_cons] at hc
  rcases hc with (hc | hc) | hc | hc
  · split at hc
    · simp only [List.mem_singleton] at hc
      rw [hc]; decide
    · simp at hc
  · exact digit_num c (natToChars_mem _ c hc)
  · rw [hc]; decide
  · exact digit_num c (padZeros_mem 6 _ (natToChars_mem _) c hc)

/-! ## Lemmas on reading numbers back -/

theorem dropWhile_isSpace_cons (c : Char) (cs : List Char) (h : isSpace c = false) :
    (c :: cs).dropWhile isSpace = c :: cs := by
  simp [List.dropWhile, h]

theorem intToChars_parse (k : Int) (rest : List Char) :
    (intToChars k ++ rest).dropWhile isSpace = intToChars k ++ rest ∧
    takeSign (intToChars k ++ rest) = (decide (k < 0), natToChars k.natAbs ++ rest) ∧
    intToChars k ++ rest ≠ [] := by
  obtain ⟨c, tl, hds⟩ := List.exists_cons_of_ne_nil (natToChars_ne_nil k.natAbs)
  have hc : c ∈ digitChars := natToChars_mem k.natAbs c (by rw [hds]; simp)
  have hp := digitChars_props c hc
  unfold intToChars
  by_cases hk : k < 0
  · simp only [hk, if_true, List.cons_append, decide_True]
    exact ⟨dropWhile_isSpace_cons '-' _ (by decide), by simp [takeSign], by simp⟩
  · simp only [hk, if_false, decide_False]
    rw [hds, List.cons_append]
    exact ⟨dropWhile_isSpace_cons c _ hp.2.1, takeSign_digit c _ hc, by simp⟩

theorem signed_natAbs (k : Int) : signed (decide (k < 0)) k.natAbs = k := by
  unfold signed
  by_cases hk : k < 0
  · simp only [hk, decide_True, if_true]
    omega
  · simp only [hk, decide_False, Bool.false_eq_true, if_false]
    omega

theorem stoi_intToChars (k : Int) (h1 : -2147483648 ≤ k) (h2 : k ≤ 2147483647) :
    stoi (intToChars k) = .ok k := by
  obtain ⟨e1, e2, _⟩ := intToChars_parse k []
  simp only [List.append_nil] at e1 e2
  have e3 := (takeWhile_digits (natToChars k.natAbs) [] (natToChars_mem _) (by simp)).1
  simp only [List.append_nil] at e3
  unfold stoi
  rw [e1, e2]
  dsimp only
  rw [e3, digitsVal_natToChars, signed_natAbs]
  have hne := natToChars_ne_nil k.natAbs
  have hr : ¬ (k < -2147483648 ∨ 2147483647 < k) := by omega
  simp [hne, hr]

theorem extractInt_text (k : Int) (r : List Char) (tgt : Int)
    (h1 : -2147483648 ≤ k) (h2 : k ≤ 2147483647) :
    extractInt { rest := intToChars k ++ '\n' :: r, fail := false } tgt =
      (k, { rest := '\n' :: r, fail := false }) := by
  obtain ⟨e1, e2, e0⟩ := intToChars_parse k ('\n' :: r)
  obtain ⟨e3, e4⟩ := takeWhile_digits (natToChars k.natAbs) ('\n' :: r) (natToChars_mem _)
    (by intro c hc; simp only [List.head?_cons, Option.some.injEq] at hc; rw [← hc]; decide)
  have hne := natToChars_ne_nil k.natAbs
  have hr1 : ¬ k < -2147483648 := by omega
  have hr2 : ¬ 2147483647 < k := by omega
  unfold extractInt
  simp only [Bool.false_eq_true, if_false, e1, e0, e2, e3, e4, hne, digitsVal_natToChars,
    signed_natAbs, hr1, hr2]

theorem extractInt_text_nl (n : Nat) (r : List Char) (tgt : Int) (h : n ≤ 2147483647) :
    extractInt { rest := '\n' :: (natToChars n ++ '\n' :: r), fail := false } tgt =
      ((n : Int), { rest := '\n' :: r, fail := false }) := by
  have e : intToChars (n : Int) = natToChars n := by
    unfold intToChars
    have : ¬ ((n : Int) < 0) := by omega
    simp [this]
  have key := extractInt_text (n : Int) r tgt (by omega) (by omega)
  rw [e] at key
  unfold extractInt at key ⊢
  have hd : ('\n' :: (natToChars n ++ '\n' :: r)).dropWhile isSpace =
      (natToChars n ++ '\n' :: r).dropWhile isSpace := by
    simp [List.dropWhile, isSpace]
  simp only [hd]
  exact key

/-! ## Lemmas on lines and fields -/

theorem unlines_cons (l : List Char) (ls : List (List Char)) :
    unlines (l :: ls) = l ++ '\n' :: unlines ls := by
  simp [unlines]

theorem unlines_append (xs ys : List (List Char)) :
    unlines (xs ++ ys) = unlines xs ++ unlines ys := by
  simp [unlines]

theorem unlines_flatten (gs : List (List (List Char))) :
    unlines gs.flatten = (gs.map unlines).flatten := by
  induction gs with
  | nil => rfl
  | cons g gs ih => simp [unlines_append, ih]

theorem saveToFile_eq (a : Account) : a.saveToFile = unlines (accountGroup a) := by
  simp [Account.saveToFile, accountGroup, unlines, accountLine, Function.comp_def]

theorem saveAccounts_eq (s : BankingSystem) : s.saveAccounts = unlines (specLines s) := by
  unfold BankingSystem.saveAccounts specLines
  rw [unlines_cons, unlines_cons, unlines_flatten]
  simp [saveToFile_eq, Function.comp_def]

theorem textLines_line (l rest cur : List Char) (h : '\n' ∉ l) :
    textLines (l ++ '\n' :: rest) cur = (cur.reverse ++ l) :: textLines rest [] := by
  induction l generalizing cur with
  | nil => simp [textLines]
  | cons c l ih =>
    simp only [List.mem_cons, not_or] at h
    have hc : ¬ c = '\n' := fun e => h.1 e.symm
    simp [textLines, hc, ih (c :: cur) h.2]

theorem textLines_unlines (ls : List (List Char)) (h : ∀ l ∈ ls, '\n' ∉ l) :
    textLines (unlines ls) [] = ls := by
  induction ls with
  | nil => simp [unlines, textLines]
  | cons l ls ih =>
    rw [unlines_cons, textLines_line l _ [] (h l (by simp)),
      ih (fun x hx => h x (by simp [hx]))]
    simp

theorem getline_line (l rest : List Char) (h : '\n' ∉ l) :
    getline { rest := l ++ '\n' :: rest, fail := false } =
      (l, { rest := rest, fail := false }) := by
  have hne : l ++ '\n' :: rest ≠ [] := by simp
  have h1 : (l ++ '\n' :: rest).takeWhile (fun c => c != '\n') = l ∧
      (l ++ '\n' :: rest).dropWhile (fun c => c != '\n') = '\n' :: rest := by
    induction l with
    | nil => simp [List.takeWhile, List.dropWhile]
    | cons c l ih =>
      simp only [List.mem_cons, not_or] at h
      have hc : (c != '\n') = true := by
        simp only [bne_iff_ne, ne_eq]
        exact fun e => h.1 e.symm
      have := ih h.2 (by simp)
      simp [List.takeWhile, List.dropWhile, hc, this]
  simp [getline, hne, h1.1, h1.2]

theorem splitComma_field (x rest cur : List Char) (h : ',' ∉ x) :
    splitComma (x ++ ',' :: rest) cur = (cur.reverse ++ x) :: splitComma rest [] := by
  induction x generalizing cur with
  | nil => simp [splitComma]
  | cons c x ih =>
    simp only [List.mem_cons, not_or] at h
    have hc : ¬ c = ',' := fun e => h.1 e.symm
    simp [splitComma, hc, ih (c :: cur) h.2]

theorem splitComma_last (x cur : List Char) (h : ',' ∉ x) :
    splitComma x cur = [cur.reverse ++ x] := by
  induction x generalizing cur with
  | nil => simp [splitComma]
  | cons c x ih =>
    simp only [List.mem_cons, not_or] at h
    have hc : ¬ c = ',' := fun e => h.1 e.symm
    simp [splitComma, hc, ih (c :: cur) h.2]

theorem length_splitComma (l cur : List Char) :
    (splitComma l cur).length = l.count ',' + 1 := by
  induction l generalizing cur with
  | nil => simp [splitComma]
  | cons c l ih =>
    by_cases hc : c = ','
    · subst hc
      simp [splitComma, ih]
    · have hc2 : ¬ (c == ',') = true := by simpa using hc
      simp [splitComma, hc, ih, List.count_cons, hc2]

theorem num_no_comma (xs : List Char) (h : ∀ c ∈ xs, c ∈ numChars) : ',' ∉ xs := fun hm =>
  (numChars_props ',' (h _ hm)).2.1 rfl

theorem num_no_newline (xs : List Char) (h : ∀ c ∈ xs, c ∈ numChars) : '\n' ∉ xs := fun hm =>
  (numChars_props '\n' (h _ hm)).2.2.1 rfl

theorem natToChars_num (n : Nat) : ∀ c ∈ natToChars n, c ∈ numChars := fun c h =>
  digit_num c (natToChars_mem n c h)

theorem countLine_fields (n : Nat) : (splitComma (natToChars n) []).length ≠ 4 := by
  rw [splitComma_last _ [] (num_no_comma _ (natToChars_num n))]
  simp

/-! ## Lemmas on loading saved text -/

theorem accountLine_no_newline (a : Account) (h : LineSafe a) : '\n' ∉ accountLine a := by
  unfold accountLine
  simp only [List.mem_append, List.mem_cons, not_or]
  have h1 := num_no_newline _ (intToChars_mem a.accountNumber)
  have h2 := num_no_newline _ (doubleToChars_mem a.balance)
  have hc : ¬ '\n' = ',' := by decide
  exact ⟨⟨⟨h1, hc, h.1⟩, hc, h.2.1⟩, hc, h2⟩

theorem transactionLine_no_newline (t : Transaction) (h1 : '\n' ∉ t.date.data)
    (h2 : '\n' ∉ t.type.data) (h3 : '\n' ∉ t.description.data) :
    '\n' ∉ t.toString.data := by
  have h4 := num_no_newline _ (to_string_double_mem t.amount)
  have h5 := num_no_newline _ (to_string_double_mem t.balanceAfter)
  simp [Transaction.toString, String.data_append, h1, h2, h3, h4, h5]

theorem accountGroup_no_newline (a : Account) (h : LineSafe a) :
    ∀ l ∈ accountGroup a, '\n' ∉ l := by
  intro l hl
  simp only [accountGroup, List.mem_cons, List.mem_map] at hl
  rcases hl with hl | hl | ⟨t, ht, hl⟩
  · rw [hl]; exact accountLine_no_newline a h
  · rw [hl]; exact num_no_newline _ (natToChars_num _)
  · rw [← hl]
    have := h.2.2 t ht
    exact transactionLine_no_newline t this.1 this.2.1 this.2.2

/-! ## Lemmas on the text of machine numbers -/

theorem putChars_props : ∀ c ∈ putChars, c ≠ ',' ∧ c ≠ '\n' := by
  decide

theorem num_putChars (c : Char) (h : c ∈ numChars) : c ∈ putChars :=
  List.mem_append_left _ h

theorem put_fin (q : ℚ) : (Double.fin q).put = doubleToChars q := rfl

theorem to_string_fin (q : ℚ) : (Double.fin q).to_string = to_string_double q := rfl

theorem put_mem (d : Double) : ∀ c ∈ d.put, c ∈ putChars := by
  intro c hc
  cases d with
  | fin q =>
    rw [put_fin] at hc
    exact num_putChars c (doubleToChars_mem q c hc)
  | negZero =>
    simp only [Double.put, List.mem_cons, List.mem_singleton] at hc
    rcases hc with hc | hc | hc
    · rw [hc]; decide
    · rw [hc]; decide
    · simp at hc
  | inf neg =>
    cases neg <;> simp only [Double.put] at hc <;> revert c <;> decide
  | nan neg =>
    cases neg <;> simp only [Double.put] at hc <;> revert c <;> decide

theorem to_string_mem (d : Double) : ∀ c ∈ d.to_string.data, c ∈ putChars := by
  intro c hc
  cases d with
  | fin q =>
    rw [to_string_fin] at hc
    exact num_putChars c (to_string_double_mem q c hc)
  | negZero =>
    revert c
    simp only [Double.to_string]
    decide
  | inf neg =>
    cases neg <;> simp only [Double.to_string] at hc <;> revert c <;> decide
  | nan neg =>
    cases neg <;> simp only [Double.to_string] at hc <;> revert c <;> decide

theorem put_no_comma (d : Double) : ',' ∉ d.put := fun hm =>
  (putChars_props ',' (put_mem d _ hm)).1 rfl

theorem put_no_newline (d : Double) : '\n' ∉ d.put := fun hm =>
  (putChars_props '\n' (put_mem d _ hm)).2 rfl

theorem toString_no_newline (d : Double) : '\n' ∉ d.to_string.data := fun hm =>
  (putChars_props '\n' (to_string_mem d _ hm)).2 rfl

theorem stod_put_ok (b : Double) (h : (Machine.stod b.put).toOption.isSome = true) :
    Machine.stod b.put = .ok (Machine.reread b) := by
  unfold Machine.reread
  cases hs : Machine.stod b.put with
  | error e => rw [hs] at h; simp [Except.toOption] at h
  | ok v => rfl

/-! ## Lemmas on the program on machine numbers -/

namespace Machine

namespace AccountMap

theorem find_modify_same_m (m : AccountMap) (k : Int) (f : Account → Account) :
    (m.modify k f).find k = (m.find k).map f := by
  induction m with
  | nil => rfl
  | cons p rest ih =>
    obtain ⟨k', a⟩ := p
    by_cases h : k' = k
    · simp [modify, find, h]
    · simp [modify, find, h, ih]

theorem find_modify_ne_m (m : AccountMap) {k k' : Int} (hne : k ≠ k') (f : Account → Account) :
    (m.modify k f).find k' = m.find k' := by
  induction m with
  | nil => rfl
  | cons p rest ih =>
    obtain ⟨k'', a⟩ := p
    by_cases h : k'' = k
    · subst h
      simp [modify, find, hne]
    · by_cases h2 : k'' = k'
      · subst h2
        simp [modify, find, h]
      · simp [modify, find, h, h2, ih]

theorem keys_modify_m (m : AccountMap) (k : Int) (f : Account → Account) :
    (m.modify k f).keys = m.keys := by
  induction m with
  | nil => rfl
  | cons p rest ih =>
    obtain ⟨k', a⟩ := p
    by_cases h : k' = k
    · simp [modify, keys, h]
    · simp only [keys] at ih
      simp [modify, keys, h, ih]

theorem find_emplace_ne_m (m : AccountMap) {k k' : Int} (a : Account) (hne : k ≠ k') :
    (m.emplace k a).find k' = m.find k' := by
  induction m with
  | nil => simp [emplace, find, hne]
  | cons p rest ih =>
    obtain ⟨k'', b⟩ := p
    by_cases h1 : k < k''
    · simp [emplace, find, h1, hne]
    · by_cases h2 : k = k''
      · simp [emplace, h1, h2]
      · by_cases h3 : k'' = k'
        · subst h3
          simp [emplace, find, h1, h2]
        · simp [emplace, find, h1, h2, h3, ih]

end AccountMap

theorem mem_emplace_m {m : AccountMap} {k : Int} {a : Account} {p : Int × Account}
    (h : p ∈ AccountMap.emplace m k a) : p ∈ m ∨ p = (k, a) := by
  induction m with
  | nil =>
    simp only [AccountMap.emplace, List.mem_singleton] at h
    exact Or.inr h
  | cons q rest ih =>
    obtain ⟨k', b⟩ := q
    by_cases h1 : k < k'
    · simp only [AccountMap.emplace, h1, if_true, List.mem_cons] at h
      rcases h with h | h | h
      · exact Or.inr h
      · exact Or.inl (by simp [h])
      · exact Or.inl (List.mem_cons_of_mem _ h)
    · by_cases h2 : k = k'
      · simp only [AccountMap.emplace, h1, h2, if_true, if_false] at h
        exact Or.inl (by simpa using h)
      · simp only [AccountMap.emplace, h1, h2, if_false, List.mem_cons] at h
        rcases h with h | h
        · exact Or.inl (by simp [h])
        · rcases ih h with h | h
          · exact Or.inl (List.mem_cons_of_mem _ h)
          · exact Or.inr h

theorem loadLoop_succ_skip_m (n : Nat) (st : IStream) (m : AccountMap)
    (h : (splitComma (getline st).1 []).length ≠ 4) :
    loadLoop (n + 1) st m = loadLoop n (getline st).2 m := by
  rcases hg : getline st with ⟨line, st1⟩
  rw [hg] at h
  rw [loadLoop, hg]
  dsimp only
  split
  · next t0 t1 t2 t3 heq =>
    rw [heq] at h
    simp at h
  · rfl

theorem loadLoop_succ_add_m (n : Nat) (st : IStream) (m : AccountMap) (t0 t1 t2 t3 : List Char)
    (k : Int) (q : Double) (h : splitComma (getline st).1 [] = [t0, t1, t2, t3])
    (h0 : stoi t0 = .ok k) (h3 : stod t3 = .ok q) :
    loadLoop (n + 1) st m =
      loadLoop n (getline st).2
        (m.emplace k (Account.new k (String.mk t1) (String.mk t2) q)) := by
  rcases hg : getline st with ⟨line, st1⟩
  rw [hg] at h
  rw [loadLoop, hg]
  dsimp only
  simp only [h, h0, h3]

theorem saveToFile_eq_m (a : Account) : a.saveToFile = unlines (accountGroup a) := by
  simp [Account.saveToFile, accountGroup, unlines, accountLine, Function.comp_def]

theorem accountLine_split_m (a : Account) (hn : ',' ∉ a.name.data) (hp : ',' ∉ a.password.data) :
    splitComma (accountLine a) [] =
      [intToChars a.accountNumber, a.name.data, a.password.data, a.balance.put] := by
  unfold accountLine
  simp only [List.append_assoc, List.cons_append]
  rw [splitComma_field _ _ [] (num_no_comma _ (intToChars_mem _)),
    splitComma_field _ _ [] hn,
    splitComma_field _ _ [] hp, splitComma_last _ [] (put_no_comma _)]
  simp

theorem transactionLine_fields_m (t : Transaction) :
    (splitComma t.toString.data []).length ≠ 4 := by
  rw [length_splitComma]
  have : 4 ≤ List.count ',' t.toString.data := by
    simp only [Transaction.toString, String.data_append, List.count_append]
    have e : List.count ',' [','] = 1 := by decide
    omega
  omega

theorem storable_lineSafe_m (a : Account) (h : Storable a) : LineSafe a :=
  ⟨h.2.1.2, h.2.2.1.2, h.2.2.2.1⟩

theorem accountLine_no_newline_m (a : Account) (h : LineSafe a) : '\n' ∉ accountLine a := by
  unfold accountLine
  simp only [List.mem_append, List.mem_cons, not_or]
  have h1 := num_no_newline _ (intToChars_mem a.accountNumber)
  have h2 := put_no_newline a.balance
  have hc : ¬ '\n' = ',' := by decide
  exact ⟨⟨⟨h1, hc, h.1⟩, hc, h.2.1⟩, hc, h2⟩

theorem transactionLine_no_newline_m (t : Transaction) (h1 : '\n' ∉ t.date.data)
    (h2 : '\n' ∉ t.type.data) (h3 : '\n' ∉ t.description.data) :
    '\n' ∉ t.toString.data := by
  have h4 := toString_no_newline t.amount
  have h5 := toString_no_newline t.balanceAfter
  simp [Transaction.toString, String.data_append, h1, h2, h3, h4, h5]

theorem accountGroup_no_newline_m (a : Account) (h : LineSafe a) :
    ∀ l ∈ accountGroup a, '\n' ∉ l := by
  intro l hl
  simp only [accountGroup, List.mem_cons, List.mem_map] at hl
  rcases hl with hl | hl | ⟨t, ht, hl⟩
  · rw [hl]; exact accountLine_no_newline_m a h
  · rw [hl]; exact num_no_newline _ (natToChars_num _)
  · rw [← hl]
    have := h.2.2 t ht
    exact transactionLine_no_newline_m t this.1 this.2.1 this.2.2

theorem loadLoop_nil_m (n : Nat) (b : Bool) (m : AccountMap) :
    loadLoop n { rest := [], fail := b } m = .ok m := by
  induction n generalizing b with
  | zero => rfl
  | succ n ih =>
    have hg : getline { rest := [], fail := b } = ([], { rest := [], fail := true }) := by
      cases b <;> simp [getline]
    rw [loadLoop_succ_skip_m n _ m (by rw [hg]; simp [splitComma]), hg]
    exact ih true

theorem loadLoop_skip_lines_m (ls : List (List Char)) (n : Nat) (rest : List Char)
    (m : AccountMap) (h : ∀ l ∈ ls, '\n' ∉ l ∧ (splitComma l []).length ≠ 4) :
    loadLoop n { rest := unlines ls ++ rest, fail := false } m =
      loadLoop (n - ls.length) { rest := rest, fail := false } m := by
  induction ls generalizing n with
  | nil => simp [unlines]
  | cons l ls ih =>
    cases n with
    | zero => simp [loadLoop]
    | succ n =>
      have hl := h l (by simp)
      have hg := getline_line l (unlines ls ++ rest) hl.1
      have e : unlines (l :: ls) ++ rest = l ++ '\n' :: (unlines ls ++ rest) := by
        rw [unlines_cons]
        simp
      rw [e, loadLoop_succ_skip_m n _ m (by rw [hg]; exact hl.2), hg,
        ih n (fun x hx => h x (by simp [hx]))]
      simp

theorem load_groups_m (as : List (Int × Account)) (n : Nat) (m : AccountMap)
    (h : ∀ p ∈ as, Storable p.2) :
    loadLoop n { rest := (as.map (fun p => p.2.saveToFile)).flatten, fail := false } m =
      .ok (emplaceAll m (restored as n)) := by
  induction as generalizing n m with
  | nil =>
    cases n <;> simp [restored, emplaceAll, loadLoop_nil_m]
  | cons p rest ih =>
    cases n with
    | zero => simp [loadLoop, restored, emplaceAll]
    | succ n =>
      have hp := h p (by simp)
      have hrest : ∀ q ∈ rest, Storable q.2 := fun q hq => h q (by simp [hq])
      have hgrp := accountGroup_no_newline_m p.2 (storable_lineSafe_m p.2 hp)
      have e : ((p :: rest).map (fun p => p.2.saveToFile)).flatten =
          accountLine p.2 ++ '\n' ::
            (unlines (natToChars p.2.transactionHistory.length ::
              p.2.transactionHistory.map (fun t => t.toString.data)) ++
            (rest.map (fun p => p.2.saveToFile)).flatten) := by
        simp only [List.map_cons, List.flatten_cons, saveToFile_eq_m, accountGroup]
        rw [unlines_cons]
        simp
      have hg := getline_line (accountLine p.2)
        (unlines (natToChars p.2.transactionHistory.length ::
              p.2.transactionHistory.map (fun t => t.toString.data)) ++
            (rest.map (fun p => p.2.saveToFile)).flatten)
        (accountLine_no_newline_m p.2 (storable_lineSafe_m p.2 hp))
      rw [e, loadLoop_succ_add_m n _ m (intToChars p.2.accountNumber) p.2.name.data
        p.2.password.data p.2.balance.put p.2.accountNumber (reread p.2.balance)
        (by rw [hg]; exact accountLine_split_m p.2 hp.2.1.1 hp.2.2.1.1)
        (stoi_intToChars _ hp.1.1 hp.1.2) (stod_put_ok _ hp.2.2.2.2), hg]
      rw [loadLoop_skip_lines_m _ n _ _ (by
        intro l hl
        refine ⟨hgrp l (by simp only [accountGroup]; exact List.mem_cons_of_mem _ hl), ?_⟩
        simp only [List.mem_cons, List.mem_map] at hl
        rcases hl with hl | ⟨t, _, hl⟩
        · rw [hl]; exact countLine_fields _
        · rw [← hl]; exact transactionLine_fields_m t)]
      rw [ih _ _ hrest]
      simp only [restored, emplaceAll, List.foldl_cons, List.length_cons, List.length_map]
      rw [Nat.add_comm 1]

theorem restored_length_m (as : List (Int × Account)) (n : Nat) :
    2 * (restored as n).length ≤ n + 1 := by
  induction as generalizing n with
  | nil => simp [restored]
  | cons p rest ih =>
    cases n with
    | zero => simp [restored]
    | succ n =>
      have := ih (n - (1 + p.2.transactionHistory.length))
      simp only [restored, List.length_cons]
      omega

theorem restored_mem_m (as : List (Int × Account)) (n : Nat) :
    ∀ q ∈ restored as n, ∃ p ∈ as, q = (p.2.accountNumber,
      Account.new p.2.accountNumber p.2.name p.2.password (reread p.2.balance)) := by
  induction as generalizing n with
  | nil => simp [restored]
  | cons p rest ih =>
    cases n with
    | zero => simp [restored]
    | succ n =>
      intro q hq
      simp only [restored, List.mem_cons] at hq
      rcases hq with hq | hq
      · exact ⟨p, by simp, hq⟩
      · obtain ⟨p', hp', e⟩ := ih _ q hq
        exact ⟨p', by simp [hp'], e⟩

theorem length_emplace_le_m (m : AccountMap) (k : Int) (a : Account) :
    (m.emplace k a).length ≤ m.length + 1 := by
  induction m with
  | nil => simp [AccountMap.emplace]
  | cons p rest ih =>
    obtain ⟨k', b⟩ := p
    by_cases h1 : k < k'
    · simp [AccountMap.emplace, h1]
    · by_cases h2 : k = k'
      · simp [AccountMap.emplace, h1, h2]
      · simp only [AccountMap.emplace, h1, h2, if_false, List.length_cons]
        omega

theorem emplaceAll_length_le_m (m : AccountMap) (l : List (Int × Account)) :
    (emplaceAll m l).length ≤ m.length + l.length := by
  induction l generalizing m with
  | nil => simp [emplaceAll]
  | cons x l ih =>
    have h1 := ih (m.emplace x.1 x.2)
    have h2 := length_emplace_le_m m x.1 x.2
    simp only [emplaceAll, List.foldl_cons, List.length_cons] at h1 ⊢
    omega

theorem emplaceAll_mem_m (m : AccountMap) (l : List (Int × Account)) :
    ∀ q ∈ emplaceAll m l, q ∈ m ∨ q ∈ l := by
  induction l generalizing m with
  | nil => intro q hq; exact Or.inl hq
  | cons x l ih =>
    intro q hq
    simp only [emplaceAll, List.foldl_cons] at hq
    rcases ih _ q hq with h | h
    · rcases mem_emplace_m h with h | h
      · exact Or.inl h
      · exact Or.inr (by simp [h])
    · exact Or.inr (List.mem_cons_of_mem _ h)

theorem emplaceAll_find_m (m : AccountMap) (l : List (Int × Account)) (k : Int)
    (h : ∀ q ∈ l, q.1 ≠ k) : (emplaceAll m l).find k = m.find k := by
  induction l generalizing m with
  | nil => rfl
  | cons x l ih =>
    simp only [emplaceAll, List.foldl_cons]
    have := ih (m.emplace x.1 x.2) (fun q hq => h q (by simp [hq]))
    simp only [emplaceAll] at this
    rw [this, AccountMap.find_emplace_ne_m m _ (h x (by simp))]

theorem loadAccounts_saved_m (s : BankingSystem) (n0 : Int)
    (hn1 : -2147483648 ≤ s.nextAccountNumber) (hn2 : s.nextAccountNumber ≤ 2147483647)
    (hlen : s.accounts.length ≤ 2147483647) (hst : ∀ p ∈ s.accounts, Storable p.2) :
    BankingSystem.init.loadAccounts (some s.saveAccounts) n0 =
      .ok { accounts := emplaceAll [] (restored s.accounts s.accounts.length),
            nextAccountNumber := s.nextAccountNumber } := by
  unfold BankingSystem.loadAccounts BankingSystem.saveAccounts
  dsimp only
  rw [extractInt_text _ _ _ hn1 hn2]
  dsimp only
  rw [extractInt_text_nl _ _ _ hlen]
  dsimp only
  have hi : ignore (IStream.mk ('\n' :: (s.accounts.map (fun p => p.2.saveToFile)).flatten)
      false) = IStream.mk ((s.accounts.map (fun p => p.2.saveToFile)).flatten) false := by
    simp [ignore]
  rw [hi, Int.toNat_ofNat, load_groups_m s.accounts _ _ hst]
  rfl

end Machine

/-! ## Lemmas on comparisons and transfer on machine numbers -/

theorem ord_none_iff (x : Double) : x.ord = none ↔ x.isNaN = true := by
  cases x <;> simp [Double.ord, Double.isNaN]

theorem lt_of_ord (x y : Double) (i j : Int) (a b : ℚ) (hx : x.ord = some (i, a))
    (hy : y.ord = some (j, b)) : Double.lt x y = decide (i < j ∨ (i = j ∧ a < b)) := by
  simp [Double.lt, hx, hy]

theorem le_of_ord (x y : Double) (i j : Int) (a b : ℚ) (hx : x.ord = some (i, a))
    (hy : y.ord = some (j, b)) : Double.le x y = decide (i < j ∨ (i = j ∧ a ≤ b)) := by
  simp [Double.le, hx, hy]

theorem lt_nan_left (x y : Double) (h : x.isNaN = true) : Double.lt x y = false := by
  have := (ord_none_iff x).mpr h
  simp [Double.lt, this]

theorem lt_nan_right (x y : Double) (h : y.isNaN = true) : Double.lt x y = false := by
  have := (ord_none_iff y).mpr h
  cases hx : x.ord <;> simp [Double.lt, this, hx]

theorem le_nan_left (x y : Double) (h : x.isNaN = true) : Double.le x y = false := by
  have := (ord_none_iff x).mpr h
  simp [Double.le, this]

theorem le_nan_right (x y : Double) (h : y.isNaN = true) : Double.le x y = false := by
  have := (ord_none_iff y).mpr h
  cases hx : x.ord <;> simp [Double.le, this, hx]

theorem ord_of_not_nan (x : Double) (h : x.isNaN = false) : ∃ i a, x.ord = some (i, a) := by
  cases hx : x.ord with
  | none => rw [(ord_none_iff x).mp hx] at h; exact absurd h (by simp)
  | some p => exact ⟨p.1, p.2, rfl⟩

theorem not_nan_of_lt_right (x y : Double) (h : Double.lt x y = true) : y.isNaN = false := by
  cases hn : y.isNaN with
  | false => rfl
  | true => rw [lt_nan_right x y hn] at h; exact absurd h (by simp)

theorem not_nan_of_le_right (x y : Double) (h : Double.le x y = true) : y.isNaN = false := by
  cases hn : y.isNaN with
  | false => rfl
  | true => rw [le_nan_right x y hn] at h; exact absurd h (by simp)

theorem not_nan_of_le_left (x y : Double) (h : Double.le x y = true) : x.isNaN = false := by
  cases hn : x.isNaN with
  | false => rfl
  | true => rw [le_nan_left x y hn] at h; exact absurd h (by simp)

theorem le_false_of_lt (x y : Double) (h : Double.lt x y = true) : Double.le y x = false := by
  have hy := not_nan_of_lt_right x y h
  cases hnx : x.isNaN with
  | true => exact le_nan_right y x hnx
  | false =>
    obtain ⟨i, a, hx⟩ := ord_of_not_nan x hnx
    obtain ⟨j, b, hyo⟩ := ord_of_not_nan y hy
    rw [lt_of_ord x y i j a b hx hyo] at h
    rw [le_of_ord y x j i b a hyo hx]
    simp only [decide_eq_true_eq, decide_eq_false_iff_not, not_or, not_and] at h ⊢
    rcases h with h | ⟨h1, h2⟩
    · exact ⟨by omega, fun e => by omega⟩
    · exact ⟨by omega, fun _ => not_le.mpr h2⟩

theorem lt_false_of_le (x y : Double) (h : Double.le x y = true) : Double.lt y x = false := by
  have hy := not_nan_of_le_right x y h
  have hnx := not_nan_of_le_left x y h
  obtain ⟨i, a, hx⟩ := ord_of_not_nan x hnx
  obtain ⟨j, b, hyo⟩ := ord_of_not_nan y hy
  rw [le_of_ord x y i j a b hx hyo] at h
  rw [lt_of_ord y x j i b a hyo hx]
  simp only [decide_eq_true_eq, decide_eq_false_iff_not, not_or, not_and] at h ⊢
  rcases h with h | ⟨h1, h2⟩
  · exact ⟨by omega, fun e => by omega⟩
  · exact ⟨by omega, fun _ => not_lt.mpr h2⟩

theorem lt_of_not_le (x y : Double) (hx : x.isNaN = false) (hy : y.isNaN = false)
    (h : Double.le x y = false) : Double.lt y x = true := by
  obtain ⟨i, a, hxo⟩ := ord_of_not_nan x hx
  obtain ⟨j, b, hyo⟩ := ord_of_not_nan y hy
  rw [le_of_ord x y i j a b hxo hyo] at h
  rw [lt_of_ord y x j i b a hyo hxo]
  simp only [decide_eq_true_eq, decide_eq_false_iff_not, not_or, not_and] at h ⊢
  rcases lt_trichotomy i j with c | c | c
  · exact absurd c h.1
  · exact Or.inr ⟨c.symm, not_le.mp (h.2 c)⟩
  · exact Or.inl c

theorem le_of_not_lt (x y : Double) (hx : x.isNaN = false) (hy : y.isNaN = false)
    (h : Double.lt x y = false) : Double.le y x = true := by
  obtain ⟨i, a, hxo⟩ := ord_of_not_nan x hx
  obtain ⟨j, b, hyo⟩ := ord_of_not_nan y hy
  rw [lt_of_ord x y i j a b hxo hyo] at h
  rw [le_of_ord y x j i b a hyo hxo]
  simp only [decide_eq_true_eq, decide_eq_false_iff_not, not_or, not_and] at h ⊢
  rcases lt_trichotomy i j with c | c | c
  · exact absurd c h.1
  · exact Or.inr ⟨c.symm, not_lt.mp (h.2 c)⟩
  · exact Or.inl c

theorem add_fin_exact (x y : ℚ) (h : Double.ofRat (x + y) = Double.fin (x + y)) :
    Double.add (Double.fin x) (Double.fin y) = Double.fin (x + y) := by
  by_cases e : x + y = 0
  · simp [Double.add, e]
  · simp [Double.add, e, h]

theorem sub_fin_exact (x y : ℚ) (h : Double.ofRat (x - y) = Double.fin (x - y)) :
    Double.sub (Double.fin x) (Double.fin y) = Double.fin (x - y) := by
  by_cases e : x - y = 0
  · simp [Double.sub, e]
  · simp [Double.sub, e, h]

namespace Machine

theorem withdraw_flag_m (a : Account) (amt : Double) (now : String) :
    (a.withdraw amt now).1 = (Double.lt Double.zero amt && Double.le amt a.balance) := by
  unfold Account.withdraw
  split
  · next h => simp [h]
  · next h => simp [h]

theorem withdraw_ok_m (a : Account) (amt : Double) (now : String)
    (hpos : Double.lt Double.zero amt = true) (hbal : Double.le amt a.balance = true) :
    a.withdraw amt now = (true, { a with
      balance := Double.sub a.balance amt
      transactionHistory := a.transactionHistory ++
        [Transaction.new now "DEBIT" amt "Withdrawal" (Double.sub a.balance amt)] }) := by
  simp [Account.withdraw, hpos, hbal]

theorem deposit_ok_m (a : Account) (amt : Double) (now : String)
    (hpos : Double.lt Double.zero amt = true) :
    a.deposit amt now = (true, { a with
      balance := Double.add a.balance amt
      transactionHistory := a.transactionHistory ++
        [Transaction.new now "CREDIT" amt "Deposit" (Double.add a.balance amt)] }) := by
  simp [Account.deposit, hpos]

theorem transfer_result_m (s : BankingSystem) (f t : Int) (amt : Double)
    (d1 d2 d3 d4 : String) :
    (s.transfer f t amt d1 d2 d3 d4).1 =
      match s.getAccount f, s.getAccount t with
      | some A, some _ =>
        if Double.le amt Double.zero then (false, "Invalid amount")
        else if Double.lt A.balance amt then (false, "Insufficient balance")
        else if Double.lt Double.zero amt && Double.le amt A.balance then
          (true, "Transfer successful")
        else (false, "Transfer failed")
      | _, _ => (false, "Invalid account number(s)") := by
  cases hf : s.getAccount f with
  | none => simp [BankingSystem.transfer, hf]
  | some A =>
    cases ht : s.getAccount t with
    | none => simp [BankingSystem.transfer, hf, ht]
    | some B =>
      by_cases h1 : Double.le amt Double.zero = true
      · simp [BankingSystem.transfer, hf, ht, h1]
      · by_cases h2 : Double.lt A.balance amt = true
        · simp [BankingSystem.transfer, hf, ht, h1, h2]
        · by_cases h3 : (Double.lt Double.zero amt && Double.le amt A.balance) = true
          · simp only [BankingSystem.transfer, hf, ht, h1, h2, withdraw_flag_m, h3]
            simp
          · simp only [BankingSystem.transfer, hf, ht, h1, h2, withdraw_flag_m, h3]
            simp

theorem transfer_ok_eq_m (s : BankingSystem) (f t : Int) (amt : Double)
    (d1 d2 d3 d4 : String) (A B : Account) (hA : s.getAccount f = some A)
    (hB : s.getAccount t = some B) (hpos : Double.lt Double.zero amt = true)
    (hbal : Double.le amt A.balance = true) :
    s.transfer f t amt d1 d2 d3 d4 = ((true, "Transfer successful"),
      { s with accounts :=
        ((((s.accounts.modify f (fun a => (a.withdraw amt d1).2)).modify t
          (fun a => (a.deposit amt d2).2)).modify f
          (fun a => a.addTransferTransaction false amt t d3)).modify t
          (fun a => a.addTransferTransaction true amt f d4)) }) := by
  have h1 := le_false_of_lt _ _ hpos
  have h2 := lt_false_of_le _ _ hbal
  simp [BankingSystem.transfer, hA, hB, h1, h2, withdraw_flag_m, hpos, hbal]

theorem transfer_ok_accounts_m (s : BankingSystem) (f t : Int) (amt : Double)
    (d1 d2 d3 d4 : String) (A B : Account) (hA : s.getAccount f = some A)
    (hB : s.getAccount t = some B) (hne : f ≠ t) (hpos : Double.lt Double.zero amt = true)
    (hbal : Double.le amt A.balance = true) :
    (s.transfer f t amt d1 d2 d3 d4).1 = (true, "Transfer successful") ∧
    (s.transfer f t amt d1 d2 d3 d4).2.getAccount f =
      some (((A.withdraw amt d1).2).addTransferTransaction false amt t d3) ∧
    (s.transfer f t amt d1 d2 d3 d4).2.getAccount t =
      some (((B.deposit amt d2).2).addTransferTransaction true amt f d4) := by
  rw [transfer_ok_eq_m s f t amt d1 d2 d3 d4 A B hA hB hpos hbal]
  simp only [BankingSystem.getAccount] at hA hB ⊢
  refine ⟨trivial, ?_, ?_⟩
  · rw [AccountMap.find_modify_ne_m _ (Ne.symm hne), AccountMap.find_modify_same_m,
      AccountMap.find_modify_ne_m _ (Ne.symm hne), AccountMap.find_modify_same_m, hA]
    rfl
  · rw [AccountMap.find_modify_same_m, AccountMap.find_modify_ne_m _ hne,
      AccountMap.find_modify_same_m, AccountMap.find_modify_ne_m _ hne, hB]
    rfl

end Machine

namespace Machine

theorem transfer_failed_iff_m (s : BankingSystem) (f t : Int) (amt : Double)
    (d1 d2 d3 d4 : String) :
    (s.transfer f t amt d1 d2 d3 d4).1 = (false, "Transfer failed") ↔
      ∃ A, s.getAccount f = some A ∧ (s.getAccount t).isSome = true ∧
        (amt.isNaN = true ∨ (A.balance.isNaN = true ∧ Double.lt Double.zero amt = true)) := by
  rw [transfer_result_m]
  cases hf : s.getAccount f with
  | none => simp
  | some A =>
    cases ht : s.getAccount t with
    | none => simp
    | some B =>
      simp only [Option.some.injEq, Option.isSome_some, true_and, exists_eq_left']
      by_cases h1 : Double.le amt Double.zero = true
      · have hn := not_nan_of_le_left _ _ h1
        have hl := lt_false_of_le _ _ h1
        simp [h1, hn, hl]
      · by_cases h2 : Double.lt A.balance amt = true
        · have hn := not_nan_of_lt_right _ _ h2
          have hb : A.balance.isNaN = false := by
            cases hb : A.balance.isNaN with
            | false => rfl
            | true => rw [lt_nan_left _ _ hb] at h2; exact absurd h2 (by simp)
          simp [h1, h2, hn, hb]
        · by_cases h3 : (Double.lt Double.zero amt && Double.le amt A.balance) = true
          · have h3' := h3
            simp only [Bool.and_eq_true] at h3'
            have hn := not_nan_of_lt_right _ _ h3'.1
            have hb := not_nan_of_le_right _ _ h3'.2
            simp [h1, h2, h3, hn, hb]
          · simp only [h1, h2, h3, if_false, Bool.false_eq_true, true_iff]
            cases hn : amt.isNaN with
            | true => exact Or.inl rfl
            | false =>
              right
              have h1' : Double.le amt Double.zero = false := by simpa using h1
              have hpos := lt_of_not_le amt Double.zero hn rfl h1'
              refine ⟨?_, hpos⟩
              cases hb : A.balance.isNaN with
              | true => rfl
              | false =>
                exfalso
                have h2' : Double.lt A.balance amt = false := by simpa using h2
                have hle := le_of_not_lt A.balance amt hb hn h2'
                exact h3 (by simp [hpos, hle])

end Machine

/-! ## Verified properties -/

/-- C4, as stated, fails: in the ledger of Alice (150) and Bob (0) the transfer of 75 from 1001 to
1002 succeeds and leaves each history two records longer, not one. -/
theorem transfer_one_record_counterexample :
    aliceBob.getAccount 1001 = some (Account.new 1001 "Alice" "p1" 150) ∧
    aliceBob.getAccount 1002 = some (Account.new 1002 "Bob" "p2" 0) ∧
    (aliceBob.transfer 1001 1002 75 "t1" "t2" "t3" "t4").1 = (true, "Transfer successful") ∧
    ((aliceBob.transfer 1001 1002 75 "t1" "t2" "t3" "t4").2.getAccount 1001).map
      (fun a => a.transactionHistory.length) = some 2 ∧
    ((aliceBob.transfer 1001 1002 75 "t1" "t2" "t3" "t4").2.getAccount 1002).map
      (fun a => a.transactionHistory.length) = some 2 ∧
    ¬ (∃ A', (aliceBob.transfer 1001 1002 75 "t1" "t2" "t3" "t4").2.getAccount 1001 = some A' ∧
      A'.transactionHistory.length =
        (Account.new 1001 "Alice" "p1" 150).transactionHistory.length + 1) := by
  have h : ((aliceBob.transfer 1001 1002 75 "t1" "t2" "t3" "t4").2.getAccount 1001).map
      (fun a => a.transactionHistory.length) = some 2 := by decide!
  refine ⟨by decide, by decide, by decide!, h, by decide!, ?_⟩
  rintro ⟨A', hA', hlen⟩
  rw [hA'] at h
  simp [Account.new] at h hlen
  omega

/-- C4, amended: with two distinct existing accounts and `A.balance ≥ amt > 0`, after
`transfer` each of the two histories is exactly two records longer than before. The source gains
the DEBIT record of the withdrawal and then a DEBIT transfer-leg record described
"Transfer to <destination number>"; the destination gains the CREDIT record of the deposit and
then a CREDIT transfer-leg record described "Transfer from <source number>". -/
theorem transfer_appends_two_records (s : BankingSystem) (f t : Int) (amt : ℚ)
    (d1 d2 d3 d4 : String) (A B : Account)
    (hA : s.getAccount f = some A) (hB : s.getAccount t = some B)
    (hne : f ≠ t) (hpos : 0 < amt) (hbal : amt ≤ A.balance) :
    ∃ A' B', (s.transfer f t amt d1 d2 d3 d4).2.getAccount f = some A' ∧
      (s.transfer f t amt d1 d2 d3 d4).2.getAccount t = some B' ∧
      A'.transactionHistory = A.transactionHistory ++
        [Transaction.new d1 "DEBIT" amt "Withdrawal" (A.balance - amt),
         Transaction.new d3 "DEBIT" amt ("Transfer to " ++ to_string t) (A.balance - amt)] ∧
      B'.transactionHistory = B.transactionHistory ++
        [Transaction.new d2 "CREDIT" amt "Deposit" (B.balance + amt),
         Transaction.new d4 "CREDIT" amt ("Transfer from " ++ to_string f) (B.balance + amt)] ∧
      A'.transactionHistory.length = A.transactionHistory.length + 2 ∧
      B'.transactionHistory.length = B.transactionHistory.length + 2 := by
  obtain ⟨_, h2, h3⟩ := transfer_ok_accounts s f t amt d1 d2 d3 d4 A B hA hB hne hpos hbal
  refine ⟨_, _, h2, h3, ?_, ?_, ?_, ?_⟩
  · simp [withdraw_ok A amt d1 hpos hbal, Account.addTransferTransaction]
  · simp [deposit_ok B amt d2 hpos, Account.addTransferTransaction]
  · simp [withdraw_ok A amt d1 hpos hbal, Account.addTransferTransaction]
  · simp [deposit_ok B amt d2 hpos, Account.addTransferTransaction]

/-- Witness for the amended C4 on the ledger of Alice (150) and Bob (0), transfer of 75. -/
theorem transfer_appends_two_records_witness :
    ∃ A' B', (aliceBob.transfer 1001 1002 75 "t1" "t2" "t3" "t4").2.getAccount 1001 = some A' ∧
      (aliceBob.transfer 1001 1002 75 "t1" "t2" "t3" "t4").2.getAccount 1002 = some B' ∧
      A'.transactionHistory = (Account.new 1001 "Alice" "p1" 150).transactionHistory ++
        [Transaction.new "t1" "DEBIT" 75 "Withdrawal"
           ((Account.new 1001 "Alice" "p1" 150).balance - 75),
         Transaction.new "t3" "DEBIT" 75 ("Transfer to " ++ to_string 1002)
           ((Account.new 1001 "Alice" "p1" 150).balance - 75)] ∧
      B'.transactionHistory = (Account.new 1002 "Bob" "p2" 0).transactionHistory ++
        [Transaction.new "t2" "CREDIT" 75 "Deposit" ((Account.new 1002 "Bob" "p2" 0).balance + 75),
         Transaction.new "t4" "CREDIT" 75 ("Transfer from " ++ to_string 1001)
           ((Account.new 1002 "Bob" "p2" 0).balance + 75)] ∧
      A'.transactionHistory.length =
        (Account.new 1001 "Alice" "p1" 150).transactionHistory.length + 2 ∧
      B'.transactionHistory.length =
        (Account.new 1002 "Bob" "p2" 0).transactionHistory.length + 2 :=
  transfer_appends_two_records aliceBob 1001 1002 75 "t1" "t2" "t3" "t4"
    (Account.new 1001 "Alice" "p1" 150) (Account.new 1002 "Bob" "p2" 0)
    (by decide) (by decide) (by decide) (by norm_num) (by norm_num [Account.new])

/-- C9: `login` returns true exactly when an account is stored under the number and its password
equals the given one; the ledger is the same afterwards. -/
theorem login_spec (s : BankingSystem) (accountNum : Int) (password : String) :
    ((s.login accountNum password).1 = true ↔
      ∃ a, s.getAccount accountNum = some a ∧ a.password = password) ∧
    (s.login accountNum password).2 = s := by
  cases h : s.accounts.find accountNum with
  | none => simp [BankingSystem.login, BankingSystem.getAccount, h]
  | some a =>
    by_cases hp : a.password = password
    · simp [BankingSystem.login, BankingSystem.getAccount, h, Account.checkPassword, hp]
    · simp [BankingSystem.login, BankingSystem.getAccount, h, Account.checkPassword, hp]

/-- C10: in every ledger reached from the empty ledger (counter 1001) by createAccount, deposit,
withdraw and transfer calls, every stored account carries its own key as account number, that
number is at least 1001 and strictly below nextAccountNumber, and the account numbers are pairwise
distinct (they are strictly ascending in iteration order). -/
theorem next_exceeds_all (ops : List Op) :
    (∀ p ∈ (run BankingSystem.init ops).accounts,
      p.2.accountNumber = p.1 ∧ 1001 ≤ p.2.accountNumber ∧
      p.2.accountNumber < (run BankingSystem.init ops).nextAccountNumber) ∧
    (∀ k a, (run BankingSystem.init ops).getAccount k = some a →
      a.accountNumber = k ∧ k < (run BankingSystem.init ops).nextAccountNumber) ∧
    ((run BankingSystem.init ops).accounts.map (fun p => p.2.accountNumber)).Nodup ∧
    (run BankingSystem.init ops).accounts.keys.Pairwise (fun a b => a < b) := by
  obtain ⟨h1, h2, h3, _⟩ := inv_run BankingSystem.init ops inv_init
  have hkey : ∀ p ∈ (run BankingSystem.init ops).accounts,
      p.1 ∈ AccountMap.keys (run BankingSystem.init ops).accounts := fun p hp =>
    List.mem_map_of_mem Prod.fst hp
  refine ⟨?_, ?_, ?_, h1⟩
  · intro p hp
    have := h2 p.1 (hkey p hp)
    rw [h3 p hp]
    exact ⟨rfl, this.1, this.2⟩
  · intro k a hka
    have hm := AccountMap.mem_of_find hka
    exact ⟨h3 _ hm, (h2 k (hkey _ hm)).2⟩
  · have e : (run BankingSystem.init ops).accounts.map (fun p => p.2.accountNumber) =
        AccountMap.keys (run BankingSystem.init ops).accounts := by
      unfold AccountMap.keys
      exact List.map_congr_left (fun p hp => h3 p hp)
    rw [e]
    exact h1.imp (fun hab => ne_of_lt hab)

/-- C8: `createAccount` with a negative deposit returns number 0 with the negative-deposit
message and leaves any ledger as it was. Otherwise, in every ledger reached from the empty one,
it returns the previous nextAccountNumber, increments the counter by one, the new number looks up
an account with exactly the given name, password, balance and an empty history, and every other
lookup is unchanged. On a fresh ledger the first account is 1001 and the second is 1002. -/
theorem createAccount_spec (s0 : BankingSystem) (ops : List Op) (name password : String) (d : ℚ)
    (n1 p1 n2 p2 : String) (e1 e2 : ℚ) (h1 : 0 ≤ e1) (h2 : 0 ≤ e2) :
    (if d < 0 then
      s0.createAccount name password d = ((0, "Initial deposit cannot be negative"), s0)
    else
      ((run BankingSystem.init ops).createAccount name password d).1 =
        ((run BankingSystem.init ops).nextAccountNumber, "Account created successfully!") ∧
      ((run BankingSystem.init ops).createAccount name password d).2.nextAccountNumber =
        (run BankingSystem.init ops).nextAccountNumber + 1 ∧
      ((run BankingSystem.init ops).createAccount name password d).2.getAccount (run BankingSystem.init ops).nextAccountNumber =
        some { accountNumber := (run BankingSystem.init ops).nextAccountNumber, name := name,
               password := password, balance := d, transactionHistory := [] } ∧
      (∀ k a, (run BankingSystem.init ops).getAccount k = some a →
        ((run BankingSystem.init ops).createAccount name password d).2.getAccount k = some a) ∧
      (∀ k, k ≠ (run BankingSystem.init ops).nextAccountNumber →
        ((run BankingSystem.init ops).createAccount name password d).2.getAccount k = (run BankingSystem.init ops).getAccount k)) ∧
    (BankingSystem.init.createAccount n1 p1 e1).1.1 = 1001 ∧
    ((BankingSystem.init.createAccount n1 p1 e1).2.createAccount n2 p2 e2).1.1 = 1002 := by
  have hInv := inv_run BankingSystem.init ops inv_init
  refine ⟨?_, ?_, ?_⟩
  · split
    · next hd => simp [BankingSystem.createAccount, hd]
    · next hd =>
      have hnew := createAccount_find_new _ name password d hInv hd
      refine ⟨by simp [BankingSystem.createAccount, hd],
        by simp [BankingSystem.createAccount, hd], hnew, ?_, ?_⟩
      · intro k a hk
        have hm := AccountMap.mem_of_find hk
        have hlt := (hInv.2.1 k (List.mem_map_of_mem Prod.fst hm)).2
        have hne : (run BankingSystem.init ops).nextAccountNumber ≠ k := by omega
        simp only [BankingSystem.getAccount] at hk ⊢
        simp [BankingSystem.createAccount, hd, AccountMap.find_emplace_ne _ _ hne, hk]
      · intro k hk
        simp [BankingSystem.getAccount, BankingSystem.createAccount, hd,
          AccountMap.find_emplace_ne _ _ (Ne.symm hk)]
  · simp [BankingSystem.createAccount, not_lt.mpr h1, BankingSystem.init]
  · simp [BankingSystem.createAccount, not_lt.mpr h1, not_lt.mpr h2, BankingSystem.init]

/-- Witness for C8: Carol opens with 20 after the scenario; Alice and Bob open on a fresh
ledger with 100 and 0. -/
theorem createAccount_spec_witness :
    (if (20 : ℚ) < 0 then
      aliceBob.createAccount "Carol" "p3" 20 = ((0, "Initial deposit cannot be negative"), aliceBob)
    else
      ((run BankingSystem.init scenario).createAccount "Carol" "p3" 20).1 =
        ((run BankingSystem.init scenario).nextAccountNumber, "Account created successfully!") ∧
      ((run BankingSystem.init scenario).createAccount "Carol" "p3" 20).2.nextAccountNumber =
        (run BankingSystem.init scenario).nextAccountNumber + 1 ∧
      ((run BankingSystem.init scenario).createAccount "Carol" "p3" 20).2.getAccount (run BankingSystem.init scenario).nextAccountNumber =
        some { accountNumber := (run BankingSystem.init scenario).nextAccountNumber, name := "Carol",
               password := "p3", balance := 20, transactionHistory := [] } ∧
      (∀ k a, (run BankingSystem.init scenario).getAccount k = some a →
        ((run BankingSystem.init scenario).createAccount "Carol" "p3" 20).2.getAccount k = some a) ∧
      (∀ k, k ≠ (run BankingSystem.init scenario).nextAccountNumber →
        ((run BankingSystem.init scenario).createAccount "Carol" "p3" 20).2.getAccount k = (run BankingSystem.init scenario).getAccount k)) ∧
    (BankingSystem.init.createAccount "Alice" "p1" 100).1.1 = 1001 ∧
    ((BankingSystem.init.createAccount "Alice" "p1" 100).2.createAccount "Bob" "p2" 0).1.1 = 1002 :=
  createAccount_spec aliceBob scenario "Carol" "p3" 20 "Alice" "p1" "Bob" "p2" 100 0
    (by norm_num) (by norm_num)

/-- C1, as stated, fails: in the scenario Alice opens account 1001 with 100, deposits 50 and
transfers 75 to Bob. Her balance is then 75, her CREDIT records sum to 50 and her DEBIT records
(the withdrawal of the transfer and its transfer leg) sum to 150, and 75 is not 100 + 50 - 150. -/
theorem balance_equation_counterexample :
    (BankingSystem.init.createAccount "Alice" "p1" 100).1.1 = 1001 ∧
    ((run BankingSystem.init scenario).getAccount 1001).map
      (fun a => (a.balance, sumOfType "CREDIT" a.transactionHistory,
        sumOfType "DEBIT" a.transactionHistory)) = some (75, 50, 150) ∧
    ¬ (∀ a, (run BankingSystem.init scenario).getAccount 1001 = some a →
      a.balance = 100 + sumOfType "CREDIT" a.transactionHistory -
        sumOfType "DEBIT" a.transactionHistory) := by
  have h : ((run BankingSystem.init scenario).getAccount 1001).map
      (fun a => (a.balance, sumOfType "CREDIT" a.transactionHistory,
        sumOfType "DEBIT" a.transactionHistory)) = some (75, 50, 150) := by decide!
  refine ⟨by decide!, h, ?_⟩
  intro hall
  cases hget : (run BankingSystem.init scenario).getAccount 1001 with
  | none => simp [hget] at h
  | some a =>
    have hbal := hall a hget
    simp only [hget, Option.map_some', Option.some.injEq, Prod.mk.injEq] at h
    obtain ⟨hb, hc, hd⟩ := h
    rw [hb, hc, hd] at hbal
    norm_num at hbal

/-- C1, amended: the account opened by a createAccount call with deposit `d ≥ 0`, in a ledger
reached from the empty one, exists after every further sequence of createAccount, deposit,
withdraw and transfer calls, and its balance equals `d` plus the sum of the amounts of its CREDIT
records described "Deposit" minus the sum of the amounts of its DEBIT records described
"Withdrawal"; the transfer-leg records are not counted. -/
theorem balance_equation (ops0 : List Op) (name password : String) (d : ℚ) (ops : List Op)
    (hd : 0 ≤ d) :
    ∃ a, (run ((run BankingSystem.init ops0).createAccount name password d).2 ops).getAccount
        (run BankingSystem.init ops0).nextAccountNumber = some a ∧
      a.balance = d + sumOfTypeDesc "CREDIT" "Deposit" a.transactionHistory -
        sumOfTypeDesc "DEBIT" "Withdrawal" a.transactionHistory := by
  have hInv := inv_run BankingSystem.init ops0 inv_init
  have hnew := createAccount_find_new _ name password d hInv (not_lt.mpr hd)
  exact balanced_run _ ops _ d (inv_createAccount _ name password d hInv)
    ⟨_, hnew, by simp [Balanced, Account.new, sumOfTypeDesc]⟩

/-- Witness for the amended C1: Alice of the scenario, opened with 100 on the fresh ledger. -/
theorem balance_equation_witness :
    ∃ a, (run ((run BankingSystem.init []).createAccount "Alice" "p1" 100).2
        scenario.tail).getAccount (run BankingSystem.init []).nextAccountNumber = some a ∧
      a.balance = 100 + sumOfTypeDesc "CREDIT" "Deposit" a.transactionHistory -
        sumOfTypeDesc "DEBIT" "Withdrawal" a.transactionHistory :=
  balance_equation [] "Alice" "p1" 100 scenario.tail (by norm_num)

/-- C2 fails on the code: saving the ledger of Alice (1001) and Bob (1002), both without
history, and loading the text into a fresh ledger restores the counter 1003 and Alice only. The
loop of loadAccounts reads two lines, Alice's account line and the line with her transaction
count, so Bob's account line is never read. -/
theorem load_after_save_drops_account :
    String.mk aliceBob.saveAccounts = "1003\n2\n1001,Alice,p1,150\n0\n1002,Bob,p2,0\n0\n" ∧
    (BankingSystem.init.loadAccounts (some aliceBob.saveAccounts) 0).toOption =
      some { accounts := [(1001, Account.new 1001 "Alice" "p1" 150)],
             nextAccountNumber := 1003 } ∧
    (aliceBob.getAccount 1002).isSome = true ∧
    (BankingSystem.init.loadAccounts (some aliceBob.saveAccounts) 0).toOption.map
      (fun s => (s.getAccount 1002).isSome) = some false := by
  decide!

/-- C15: after a successful transfer between two distinct accounts, the last record of the
source is a DEBIT with the amount, described "Transfer to <destination number>", whose
balanceAfter is the balance of the source after the transfer; the last record of the destination
is a CREDIT with the amount, described "Transfer from <source number>", whose balanceAfter is the
balance of the destination after the transfer. -/
theorem transfer_last_records (s : BankingSystem) (f t : Int) (amt : ℚ)
    (d1 d2 d3 d4 : String) (hne : f ≠ t)
    (hok : (s.transfer f t amt d1 d2 d3 d4).1.1 = true) :
    ∃ A' B', (s.transfer f t amt d1 d2 d3 d4).2.getAccount f = some A' ∧
      (s.transfer f t amt d1 d2 d3 d4).2.getAccount t = some B' ∧
      A'.transactionHistory.getLast? =
        some { date := d3, type := "DEBIT", amount := amt,
               description := "Transfer to " ++ to_string t, balanceAfter := A'.balance } ∧
      B'.transactionHistory.getLast? =
        some { date := d4, type := "CREDIT", amount := amt,
               description := "Transfer from " ++ to_string f, balanceAfter := B'.balance } := by
  obtain ⟨A, B, hA, hB, hpos, hbal⟩ := transfer_true_cond s f t amt d1 d2 d3 d4 hok
  obtain ⟨_, h2, h3⟩ := transfer_ok_accounts s f t amt d1 d2 d3 d4 A B hA hB hne hpos hbal
  refine ⟨_, _, h2, h3, ?_, ?_⟩
  · simp [Account.addTransferTransaction, Transaction.new]
  · simp [Account.addTransferTransaction, Transaction.new]

/-- Witness for C15: Alice (150) transfers 75 to Bob (0). -/
theorem transfer_last_records_witness :
    ∃ A' B', (aliceBob.transfer 1001 1002 75 "t1" "t2" "t3" "t4").2.getAccount 1001 = some A' ∧
      (aliceBob.transfer 1001 1002 75 "t1" "t2" "t3" "t4").2.getAccount 1002 = some B' ∧
      A'.transactionHistory.getLast? =
        some { date := "t3", type := "DEBIT", amount := 75,
               description := "Transfer to " ++ to_string 1002, balanceAfter := A'.balance } ∧
      B'.transactionHistory.getLast? =
        some { date := "t4", type := "CREDIT", amount := 75,
               description := "Transfer from " ++ to_string 1001, balanceAfter := B'.balance } :=
  transfer_last_records aliceBob 1001 1002 75 "t1" "t2" "t3" "t4" (by decide) (by decide!)

/-- C16: every mutating method of an account appends at most one record, and that record
carries the balance the account has right after the call. For the account opened by a
createAccount call with deposit `d ≥ 0` in a ledger reached from the empty one, after every
further sequence of calls: every record has a strictly positive amount; every record carries the
balance the account had when the history ended with that record; when the history is not empty
the balanceAfter of its last record is the current balance; and one more call of any kind leaves
the history as the beginning of the new history. -/
theorem history_records (ops0 : List Op) (name password : String) (d : ℚ) (ops : List Op)
    (op : Op) (x : Account) (amt : ℚ) (c : Bool) (j : Int) (now : String) (hd : 0 ≤ d) :
    AppendsCurrent x (x.deposit amt now).2 ∧
    AppendsCurrent x (x.withdraw amt now).2 ∧
    (∃ r, (x.addTransferTransaction c amt j now).transactionHistory =
        x.transactionHistory ++ [r] ∧
      r.balanceAfter = (x.addTransferTransaction c amt j now).balance) ∧
    ∃ a, (run ((run BankingSystem.init ops0).createAccount name password d).2 ops).getAccount
        (run BankingSystem.init ops0).nextAccountNumber = some a ∧
      (∀ r ∈ a.transactionHistory, 0 < r.amount) ∧
      (∀ p r q, a.transactionHistory = p ++ r :: q → r.balanceAfter = balanceAt d (p ++ [r])) ∧
      a.balance = balanceAt d a.transactionHistory ∧
      (∀ r, a.transactionHistory.getLast? = some r → r.balanceAfter = a.balance) ∧
      ∃ a' t, (step (run ((run BankingSystem.init ops0).createAccount name password d).2 ops)
          op).getAccount (run BankingSystem.init ops0).nextAccountNumber = some a' ∧
        a'.transactionHistory = a.transactionHistory ++ t := by
  refine ⟨appendsCurrent_deposit x amt now, appendsCurrent_withdraw x amt now,
    ⟨_, rfl, rfl⟩, ?_⟩
  have hInv := inv_run BankingSystem.init ops0 inv_init
  have hnew := createAccount_find_new _ name password d hInv (not_lt.mpr hd)
  have hInv1 := inv_createAccount _ name password d hInv
  have h0 : HistoryOK d (Account.new (run BankingSystem.init ops0).nextAccountNumber
      name password d) := by
    refine ⟨by simp [Account.new], by simp [Account.new, balanceAt, sumOfTypeDesc], ?_⟩
    intro p r q e
    simp [Account.new] at e
  obtain ⟨a, ha, hok⟩ := find_run_pred (HistoryOK d)
    (fun y amt now hy => historyOK_deposit d y amt now hy)
    (fun y amt now hy => historyOK_withdraw d y amt now hy)
    (fun y c amt j now hpos hy => historyOK_leg d y c amt j now hpos hy)
    _ ops _ hInv1 ⟨_, hnew, h0⟩
  refine ⟨a, ha, hok.1, hok.2.2, hok.2.1, historyOK_last d a hok, ?_⟩
  have hInv2 := inv_run _ ops hInv1
  obtain ⟨a', ha', t, ht⟩ := find_step_pred
    (fun y => ∃ t, y.transactionHistory = a.transactionHistory ++ t)
    (fun y amt now hy => by
      obtain ⟨t, ht⟩ := hy
      rcases appendsCurrent_deposit y amt now with e | ⟨r, e, _⟩
      · rw [e]; exact ⟨t, ht⟩
      · exact ⟨t ++ [r], by rw [e, ht, List.append_assoc]⟩)
    (fun y amt now hy => by
      obtain ⟨t, ht⟩ := hy
      rcases appendsCurrent_withdraw y amt now with e | ⟨r, e, _⟩
      · rw [e]; exact ⟨t, ht⟩
      · exact ⟨t ++ [r], by rw [e, ht, List.append_assoc]⟩)
    (fun y c amt j now _ hy => by
      obtain ⟨t, ht⟩ := hy
      exact ⟨t ++ [_], by
        simp only [Account.addTransferTransaction]
        rw [ht, List.append_assoc]⟩)
    _ op _ hInv2 ⟨a, ha, [], by simp⟩
  exact ⟨a', t, ha', ht⟩

/-- Witness for C16: Alice of the scenario, opened with 100 on the fresh ledger, followed by one
more deposit. -/
theorem history_records_witness :
    AppendsCurrent (Account.new 1001 "Alice" "p1" 100)
      ((Account.new 1001 "Alice" "p1" 100).deposit 50 "t0").2 ∧
    AppendsCurrent (Account.new 1001 "Alice" "p1" 100)
      ((Account.new 1001 "Alice" "p1" 100).withdraw 50 "t0").2 ∧
    (∃ r, ((Account.new 1001 "Alice" "p1" 100).addTransferTransaction true 50 1002
        "t0").transactionHistory = (Account.new 1001 "Alice" "p1" 100).transactionHistory ++ [r] ∧
      r.balanceAfter =
        ((Account.new 1001 "Alice" "p1" 100).addTransferTransaction true 50 1002 "t0").balance) ∧
    ∃ a, (run ((run BankingSystem.init []).createAccount "Alice" "p1" 100).2
        scenario.tail).getAccount (run BankingSystem.init []).nextAccountNumber = some a ∧
      (∀ r ∈ a.transactionHistory, 0 < r.amount) ∧
      (∀ p r q, a.transactionHistory = p ++ r :: q →
        r.balanceAfter = balanceAt 100 (p ++ [r])) ∧
      a.balance = balanceAt 100 a.transactionHistory ∧
      (∀ r, a.transactionHistory.getLast? = some r → r.balanceAfter = a.balance) ∧
      ∃ a' t, (step (run ((run BankingSystem.init []).createAccount "Alice" "p1" 100).2
          scenario.tail) (Op.deposit 1001 5 "t9")).getAccount
            (run BankingSystem.init []).nextAccountNumber = some a' ∧
        a'.transactionHistory = a.transactionHistory ++ t :=
  history_records [] "Alice" "p1" 100 scenario.tail (Op.deposit 1001 5 "t9")
    (Account.new 1001 "Alice" "p1" 100) 50 true 1002 "t0" (by norm_num)

/-- C13 fails on the code: with the header "1001", "1" and the account line
"abc,Alice,p1,100", `std::stoi` raises invalid_argument on "abc"; with the account line
"1001,Alice,p1,abc", `std::stod` raises it on "abc". Nothing catches the exception, so
loadAccounts does not return. -/
theorem load_raises_on_bad_number :
    raised (BankingSystem.init.loadAccounts (some "1001\n1\nabc,Alice,p1,100\n".data) 0) =
      some Exn.invalid_argument ∧
    raised (BankingSystem.init.loadAccounts (some "1001\n1\n1001,Alice,p1,abc\n".data) 0) =
      some Exn.invalid_argument ∧
    splitComma "abc,Alice,p1,100".data [] = ["abc".data, "Alice".data, "p1".data, "100".data] ∧
    raised (stoi "abc".data) = some Exn.invalid_argument ∧
    raised (stod "abc".data) = some Exn.invalid_argument := by
  decide!

/-- C18: for a ledger whose map is in ascending key order with every account stored under its
own number, and whose names, passwords and record texts contain no newline, the text written by
saveAccounts consists of exactly these lines, each ended by a newline: the counter, the number
of accounts, and then for every account in strictly ascending account-number order its account
line "<accountNumber>,<name>,<password>,<balance>", a line with its transaction count and one
line per transaction in history order. The number of lines is 2 plus the sum over the accounts
of 2 plus the history length. -/
theorem saveAccounts_format (s : BankingSystem)
    (hsorted : s.accounts.keys.Pairwise (fun a b => a < b))
    (hkey : ∀ p ∈ s.accounts, p.2.accountNumber = p.1)
    (hnl : ∀ p ∈ s.accounts, LineSafe p.2) :
    s.saveAccounts = unlines (specLines s) ∧
    textLines s.saveAccounts [] =
      intToChars s.nextAccountNumber :: natToChars s.accounts.length ::
        (s.accounts.map (fun p =>
          (intToChars p.2.accountNumber ++ ',' :: p.2.name.data ++ ',' :: p.2.password.data ++
              ',' :: doubleToChars p.2.balance) ::
            natToChars p.2.transactionHistory.length ::
            p.2.transactionHistory.map (fun t => t.toString.data))).flatten ∧
    (textLines s.saveAccounts []).length =
      2 + (s.accounts.map (fun p => 2 + p.2.transactionHistory.length)).sum ∧
    (s.accounts.map (fun p => p.2.accountNumber)).Pairwise (fun a b => a < b) := by
  have hlines : ∀ l ∈ specLines s, '\n' ∉ l := by
    intro l hl
    simp only [specLines, List.mem_cons, List.mem_flatten, List.mem_map] at hl
    rcases hl with hl | hl | ⟨g, ⟨p, hp, hg⟩, hl⟩
    · rw [hl]; exact num_no_newline _ (intToChars_mem _)
    · rw [hl]; exact num_no_newline _ (natToChars_num _)
    · rw [← hg] at hl
      exact accountGroup_no_newline p.2 (hnl p hp) l hl
  have htext : textLines s.saveAccounts [] = specLines s := by
    rw [saveAccounts_eq, textLines_unlines _ hlines]
  refine ⟨saveAccounts_eq s, ?_, ?_, ?_⟩
  · rw [htext]
    rfl
  · rw [htext]
    simp only [specLines, List.length_cons, List.length_flatten, List.map_map]
    have e : (List.length ∘ fun (p : Int × Account) => accountGroup p.2) =
        fun p => 2 + p.2.transactionHistory.length := by
      funext p
      simp only [Function.comp, accountGroup, List.length_cons, List.length_map]
      omega
    rw [e]
    omega
  · have e : s.accounts.map (fun p => p.2.accountNumber) = AccountMap.keys s.accounts := by
      unfold AccountMap.keys
      exact List.map_congr_left (fun p hp => hkey p hp)
    rw [e]
    exact hsorted

/-- Witness for C18: the ledger at the end of the scenario (Alice and Bob with 75 each, three
and two records). -/
theorem saveAccounts_format_witness :
    String.mk (run BankingSystem.init scenario).saveAccounts =
      "1003\n2\n1001,Alice,p1,75\n3\nt0,CREDIT,50.000000,Deposit,150.000000\n" ++
      "t1,DEBIT,75.000000,Withdrawal,75.000000\nt3,DEBIT,75.000000,Transfer to 1002,75.000000\n" ++
      "1002,Bob,p2,75\n2\nt2,CREDIT,75.000000,Deposit,75.000000\n" ++
      "t4,CREDIT,75.000000,Transfer from 1001,75.000000\n" ∧
    ((run BankingSystem.init scenario).saveAccounts =
      unlines (specLines (run BankingSystem.init scenario)) ∧
    textLines (run BankingSystem.init scenario).saveAccounts [] =
      intToChars (run BankingSystem.init scenario).nextAccountNumber ::
        natToChars (run BankingSystem.init scenario).accounts.length ::
        ((run BankingSystem.init scenario).accounts.map (fun p =>
          (intToChars p.2.accountNumber ++ ',' :: p.2.name.data ++ ',' :: p.2.password.data ++
              ',' :: doubleToChars p.2.balance) ::
            natToChars p.2.transactionHistory.length ::
            p.2.transactionHistory.map (fun t => t.toString.data))).flatten ∧
    (textLines (run BankingSystem.init scenario).saveAccounts []).length =
      2 + ((run BankingSystem.init scenario).accounts.map
        (fun p => 2 + p.2.transactionHistory.length)).sum ∧
    ((run BankingSystem.init scenario).accounts.map (fun p => p.2.accountNumber)).Pairwise
      (fun a b => a < b)) :=
  ⟨by decide!, saveAccounts_format (run BankingSystem.init scenario) (by decide!) (by decide!)
    (by decide!)⟩

namespace Machine

/-- C6, as stated, fails: the balance is a `double`. Depositing 1 into a balance of
10000000000000000 returns true and leaves the balance at 10000000000000000; depositing the
`double` nearest to 0.2 into the `double` nearest to 0.1 gives a balance that exceeds the old
one by more than the amount. -/
theorem deposit_exact_counterexample :
    ((Account.new 1001 "Alice" "p1" (Double.fin 10000000000000000)).deposit
      (Double.fin 1) "t0").1 = true ∧
    ((Account.new 1001 "Alice" "p1" (Double.fin 10000000000000000)).deposit
      (Double.fin 1) "t0").2.balance = Double.fin 10000000000000000 ∧
    (10000000000000000 : ℚ) ≠ 10000000000000000 + 1 ∧
    Double.ofRat (1 / 10) = Double.fin (3602879701896397 / 2 ^ 55) ∧
    Double.ofRat (2 / 10) = Double.fin (3602879701896397 / 2 ^ 54) ∧
    ((Account.new 1001 "Alice" "p1" (Double.ofRat (1 / 10))).deposit
      (Double.ofRat (2 / 10)) "t0").2.balance = Double.fin (1351079888211149 / 2 ^ 52) ∧
    (1351079888211149 / 2 ^ 52 : ℚ) ≠ 3602879701896397 / 2 ^ 55 + 3602879701896397 / 2 ^ 54 := by
  refine ⟨by decide!, by decide!, by norm_num, by decide!, by decide!, by decide!, by norm_num⟩

/-- C6, amended: `deposit` returns true exactly when `amount > 0` holds as a comparison of
`double` values (it does not hold for a NaN). Then the balance has become the sum of balance and
amount as `double` addition gives it, which for finite values is the exact sum rounded to the
nearest `double`, and exactly one record was appended: a CREDIT with that amount whose
balanceAfter is the new balance. Otherwise the account (balance and history) is unchanged. -/
theorem deposit_rounded (a : Account) (amount : Double) (now : String) (x y : ℚ) (s : Bool) :
    ((a.deposit amount now).1 = true ↔ Double.lt Double.zero amount = true) ∧
    (if Double.lt Double.zero amount = true then
      (a.deposit amount now).2.balance = Double.add a.balance amount ∧
      (a.deposit amount now).2.transactionHistory = a.transactionHistory ++
        [{ date := now, type := "CREDIT", amount := amount, description := "Deposit",
           balanceAfter := (a.deposit amount now).2.balance }] ∧
      (a.deposit amount now).2.transactionHistory.length = a.transactionHistory.length + 1
    else
      (a.deposit amount now).1 = false ∧ (a.deposit amount now).2 = a) ∧
    Double.add (Double.fin x) (Double.fin y) =
      (if x + y = 0 then Double.fin 0 else Double.ofRat (x + y)) ∧
    Double.lt Double.zero (Double.fin y) = decide (0 < y) ∧
    Double.lt Double.zero (Double.nan s) = false := by
  refine ⟨?_, ?_, rfl, ?_, rfl⟩
  · by_cases h : Double.lt Double.zero amount = true
    · simp [Account.deposit, h]
    · simp [Account.deposit, h]
  · by_cases h : Double.lt Double.zero amount = true
    · simp [Account.deposit, h, Transaction.new]
    · simp [Account.deposit, h]
  · simp [Double.lt, Double.ord, Double.zero]

/-- C7, as stated, fails: the balance is a `double`. Withdrawing 1 from a balance of
10000000000000000 returns true and leaves the balance at 10000000000000000. -/
theorem withdraw_exact_counterexample :
    ((Account.new 1001 "Alice" "p1" (Double.fin 10000000000000000)).withdraw
      (Double.fin 1) "t0").1 = true ∧
    ((Account.new 1001 "Alice" "p1" (Double.fin 10000000000000000)).withdraw
      (Double.fin 1) "t0").2.balance = Double.fin 10000000000000000 ∧
    (10000000000000000 : ℚ) ≠ 10000000000000000 - 1 := by
  refine ⟨by decide!, by decide!, by norm_num⟩

/-- C7, amended: `withdraw` returns true exactly when `amount > 0` and `amount <= balance` hold
as comparisons of `double` values (neither holds with a NaN). Then the balance has become the
difference of balance and amount as `double` subtraction gives it, which for finite values is
the exact difference rounded to the nearest `double`, and exactly one record was appended: a
DEBIT with that amount whose balanceAfter is the new balance. Otherwise the account is
unchanged. -/
theorem withdraw_rounded (a : Account) (amount : Double) (now : String) (x y : ℚ) (s : Bool) :
    ((a.withdraw amount now).1 = true ↔
      (Double.lt Double.zero amount = true ∧ Double.le amount a.balance = true)) ∧
    (if Double.lt Double.zero amount = true ∧ Double.le amount a.balance = true then
      (a.withdraw amount now).2.balance = Double.sub a.balance amount ∧
      (a.withdraw amount now).2.transactionHistory = a.transactionHistory ++
        [{ date := now, type := "DEBIT", amount := amount, description := "Withdrawal",
           balanceAfter := (a.withdraw amount now).2.balance }] ∧
      (a.withdraw amount now).2.transactionHistory.length = a.transactionHistory.length + 1
    else
      (a.withdraw amount now).1 = false ∧ (a.withdraw amount now).2 = a) ∧
    Double.sub (Double.fin x) (Double.fin y) =
      (if x - y = 0 then Double.fin 0 else Double.ofRat (x - y)) ∧
    Double.le (Double.fin y) (Double.fin x) = decide (y ≤ x) ∧
    Double.le (Double.fin y) (Double.nan s) = false ∧
    Double.le (Double.nan s) (Double.fin x) = false := by
  refine ⟨?_, ?_, rfl, ?_, rfl, rfl⟩
  · by_cases h : Double.lt Double.zero amount = true ∧ Double.le amount a.balance = true
    · simp [Account.withdraw, h.1, h.2]
    · have h' : ¬ ((Double.lt Double.zero amount && Double.le amount a.balance) = true) := by
        simpa using h
      simp only [Account.withdraw, h', if_false]
      simpa using h
  · by_cases h : Double.lt Double.zero amount = true ∧ Double.le amount a.balance = true
    · simp [Account.withdraw, h.1, h.2, Transaction.new]
    · have h' : ¬ ((Double.lt Double.zero amount && Double.le amount a.balance) = true) := by
        simpa using h
      simp only [Account.withdraw, h', if_false, h]
      simp
  · simp [Double.le, Double.ord]

end Machine

namespace Machine

/-- C3, as stated, fails: the balances are `double` values. With Alice at 10 and Bob at
10000000000000000, the transfer of 1 from Alice to Bob succeeds, Alice goes to 9 and Bob stays
at 10000000000000000, so Bob has not gained 1 and the sum of the two balances has changed. -/
theorem transfer_exact_counterexample :
    ((BankingSystem.init.createAccount "Alice" "p1" (Double.fin 10)).2.createAccount "Bob" "p2"
      (Double.fin 10000000000000000)).2 = bigLedger ∧
    bigLedger.getAccount 1001 = some (Account.new 1001 "Alice" "p1" (Double.fin 10)) ∧
    bigLedger.getAccount 1002 =
      some (Account.new 1002 "Bob" "p2" (Double.fin 10000000000000000)) ∧
    Double.lt Double.zero (Double.fin 1) = true ∧
    Double.le (Double.fin 1) (Double.fin 10) = true ∧
    (bigLedger.transfer 1001 1002 (Double.fin 1) "t1" "t2" "t3" "t4").1 =
      (true, "Transfer successful") ∧
    ((bigLedger.transfer 1001 1002 (Double.fin 1) "t1" "t2" "t3" "t4").2.getAccount 1001).map
      (fun a => a.balance) = some (Double.fin 9) ∧
    ((bigLedger.transfer 1001 1002 (Double.fin 1) "t1" "t2" "t3" "t4").2.getAccount 1002).map
      (fun a => a.balance) = some (Double.fin 10000000000000000) ∧
    (10000000000000000 : ℚ) ≠ 10000000000000000 + 1 ∧
    (9 + 10000000000000000 : ℚ) ≠ 10 + 10000000000000000 := by
  refine ⟨by decide!, by decide, by decide, by decide!, by decide!, by decide!, by decide!,
    by decide!, by norm_num, by norm_num⟩

/-- C3, amended: with two distinct existing accounts and `A.balance >= amt > 0` as comparisons
of `double` values, `transfer` reports success, the balance of the source becomes
`A.balance - amt` and the balance of the destination `B.balance + amt`, each as `double`
arithmetic gives it (the exact result rounded to the nearest `double`). When both exact results
are `double` values themselves, the source has lost exactly `amt`, the destination has gained
exactly `amt` and the sum of the two balances is unchanged. -/
theorem transfer_moves_rounded (s : BankingSystem) (f t : Int) (amt : Double)
    (d1 d2 d3 d4 : String) (A B : Account)
    (hA : s.getAccount f = some A) (hB : s.getAccount t = some B)
    (hne : f ≠ t) (hpos : Double.lt Double.zero amt = true)
    (hbal : Double.le amt A.balance = true) :
    (s.transfer f t amt d1 d2 d3 d4).1.1 = true ∧
    ∃ A' B', (s.transfer f t amt d1 d2 d3 d4).2.getAccount f = some A' ∧
      (s.transfer f t amt d1 d2 d3 d4).2.getAccount t = some B' ∧
      A'.balance = Double.sub A.balance amt ∧ B'.balance = Double.add B.balance amt ∧
      (∀ a b x : ℚ, A.balance = Double.fin a → B.balance = Double.fin b →
        amt = Double.fin x → Double.ofRat (a - x) = Double.fin (a - x) →
        Double.ofRat (b + x) = Double.fin (b + x) →
        A'.balance = Double.fin (a - x) ∧ B'.balance = Double.fin (b + x) ∧
          (a - x) + (b + x) = a + b) := by
  obtain ⟨h1, h2, h3⟩ := transfer_ok_accounts_m s f t amt d1 d2 d3 d4 A B hA hB hne hpos hbal
  have eA : (((A.withdraw amt d1).2).addTransferTransaction false amt t d3).balance =
      Double.sub A.balance amt := by
    simp [withdraw_ok_m A amt d1 hpos hbal, Account.addTransferTransaction]
  have eB : (((B.deposit amt d2).2).addTransferTransaction true amt f d4).balance =
      Double.add B.balance amt := by
    simp [deposit_ok_m B amt d2 hpos, Account.addTransferTransaction]
  refine ⟨by rw [h1], _, _, h2, h3, eA, eB, ?_⟩
  intro a b x ha hb hx e1 e2
  rw [eA, eB, ha, hb, hx, sub_fin_exact a x e1, add_fin_exact b x e2]
  exact ⟨rfl, rfl, by ring⟩

/-- Witness for the amended C3: Alice holds 150 and Bob 0; a transfer of 75 succeeds and leaves
75 and 75. -/
theorem transfer_moves_rounded_witness :
    (aliceBob.transfer 1001 1002 (Double.fin 75) "t1" "t2" "t3" "t4").1.1 = true ∧
    ∃ A' B', (aliceBob.transfer 1001 1002 (Double.fin 75) "t1" "t2" "t3"
        "t4").2.getAccount 1001 = some A' ∧
      (aliceBob.transfer 1001 1002 (Double.fin 75) "t1" "t2" "t3" "t4").2.getAccount 1002 =
        some B' ∧
      A'.balance = Double.fin 75 ∧ B'.balance = Double.fin 75 := by
  obtain ⟨h, A', B', hA, hB, _, _, hex⟩ :=
    transfer_moves_rounded aliceBob 1001 1002 (Double.fin 75) "t1" "t2" "t3" "t4"
      (Account.new 1001 "Alice" "p1" (Double.fin 150)) (Account.new 1002 "Bob" "p2" (Double.fin 0))
      (by decide) (by decide) (by decide) (by decide!) (by decide!)
  obtain ⟨e1, e2, _⟩ := hex 150 0 75 rfl rfl rfl (by decide!) (by decide!)
  refine ⟨h, A', B', hA, hB, ?_, ?_⟩
  · rw [e1]; norm_num
  · rw [e2]; norm_num

/-- C19, as stated, fails: the balance is a `double`. With Alice at the `double` nearest to 0.9,
her transfer of the `double` nearest to 0.2 to herself succeeds and leaves a balance one unit in
the last place below the previous one (0.8999999999999999). -/
theorem self_transfer_counterexample :
    (BankingSystem.init.createAccount "Alice" "p1" (Double.ofRat (9 / 10))).2 = pointNine ∧
    pointNine.getAccount 1001 =
      some (Account.new 1001 "Alice" "p1" (Double.ofRat (9 / 10))) ∧
    Double.ofRat (9 / 10) = Double.fin (8106479329266893 / 2 ^ 53) ∧
    Double.lt Double.zero (Double.ofRat (2 / 10)) = true ∧
    Double.le (Double.ofRat (2 / 10)) (Double.ofRat (9 / 10)) = true ∧
    (pointNine.transfer 1001 1001 (Double.ofRat (2 / 10)) "t1" "t2" "t3" "t4").1 =
      (true, "Transfer successful") ∧
    ((pointNine.transfer 1001 1001 (Double.ofRat (2 / 10)) "t1" "t2" "t3"
      "t4").2.getAccount 1001).map (fun a => a.balance) =
      some (Double.fin (8106479329266892 / 2 ^ 53)) ∧
    (8106479329266892 / 2 ^ 53 : ℚ) ≠ 8106479329266893 / 2 ^ 53 := by
  refine ⟨by decide!, by decide!, by decide!, by decide!, by decide!, by decide!, by decide!,
    by norm_num⟩

/-- C19, amended: a transfer from an existing account to itself with `0 < amt <= balance` as
comparisons of `double` values is not rejected. It reports success, leaves the balance at
`(balance - amt) + amt` as `double` arithmetic gives it, appends four records to the history (a
DEBIT withdrawal, a CREDIT deposit, a DEBIT transfer leg and a CREDIT transfer leg, in that
order) and leaves every other account and the counter unchanged. When the balance is a finite
`double` and the exact difference `balance - amt` is a `double` itself, the balance is what it
was before the call. -/
theorem self_transfer_rounded (s : BankingSystem) (k : Int) (amt : Double)
    (d1 d2 d3 d4 : String) (A : Account) (hA : s.getAccount k = some A)
    (hpos : Double.lt Double.zero amt = true) (hbal : Double.le amt A.balance = true) :
    (s.transfer k k amt d1 d2 d3 d4).1 = (true, "Transfer successful") ∧
    (s.transfer k k amt d1 d2 d3 d4).2.getAccount k = some { A with
      balance := Double.add (Double.sub A.balance amt) amt
      transactionHistory := A.transactionHistory ++
        [{ date := d1, type := "DEBIT", amount := amt, description := "Withdrawal",
           balanceAfter := Double.sub A.balance amt },
         { date := d2, type := "CREDIT", amount := amt, description := "Deposit",
           balanceAfter := Double.add (Double.sub A.balance amt) amt },
         { date := d3, type := "DEBIT", amount := amt,
           description := "Transfer to " ++ to_string k,
           balanceAfter := Double.add (Double.sub A.balance amt) amt },
         { date := d4, type := "CREDIT", amount := amt,
           description := "Transfer from " ++ to_string k,
           balanceAfter := Double.add (Double.sub A.balance amt) amt }] } ∧
    (∀ j, j ≠ k → (s.transfer k k amt d1 d2 d3 d4).2.getAccount j = s.getAccount j) ∧
    (s.transfer k k amt d1 d2 d3 d4).2.nextAccountNumber = s.nextAccountNumber ∧
    (s.transfer k k amt d1 d2 d3 d4).2.accounts.keys = s.accounts.keys ∧
    (∀ b x : ℚ, A.balance = Double.fin b → amt = Double.fin x →
      Double.ofRat b = Double.fin b → Double.ofRat (b - x) = Double.fin (b - x) →
      Double.add (Double.sub A.balance amt) amt = A.balance) := by
  rw [transfer_ok_eq_m s k k amt d1 d2 d3 d4 A A hA hA hpos hbal]
  simp only [BankingSystem.getAccount] at hA ⊢
  refine ⟨trivial, ?_, ?_, trivial, ?_, ?_⟩
  · rw [AccountMap.find_modify_same_m, AccountMap.find_modify_same_m,
      AccountMap.find_modify_same_m, AccountMap.find_modify_same_m, hA]
    simp [withdraw_ok_m A amt d1 hpos hbal, Account.deposit, hpos,
      Account.addTransferTransaction, Transaction.new]
  · intro j hj
    rw [AccountMap.find_modify_ne_m _ (Ne.symm hj), AccountMap.find_modify_ne_m _ (Ne.symm hj),
      AccountMap.find_modify_ne_m _ (Ne.symm hj), AccountMap.find_modify_ne_m _ (Ne.symm hj)]
  · simp [AccountMap.keys_modify_m]
  · intro b x hb hx e1 e2
    rw [hb, hx, sub_fin_exact b x e2]
    have e3 : Double.ofRat (b - x + x) = Double.fin (b - x + x) := by
      have : b - x + x = b := by ring
      rw [this]
      exact e1
    rw [add_fin_exact (b - x) x e3]
    congr 1
    ring

/-- Witness for the amended C19: Alice (150) transfers 75 to herself and keeps 150. -/
theorem self_transfer_rounded_witness :
    (aliceBob.transfer 1001 1001 (Double.fin 75) "t1" "t2" "t3" "t4").1 =
      (true, "Transfer successful") ∧
    ((aliceBob.transfer 1001 1001 (Double.fin 75) "t1" "t2" "t3" "t4").2.getAccount 1001).map
      (fun a => (a.balance, a.transactionHistory.length)) = some (Double.fin 150, 4) ∧
    Double.add (Double.sub (Account.new 1001 "Alice" "p1" (Double.fin 150)).balance
        (Double.fin 75)) (Double.fin 75) =
      (Account.new 1001 "Alice" "p1" (Double.fin 150)).balance :=
  ⟨(self_transfer_rounded aliceBob 1001 (Double.fin 75) "t1" "t2" "t3" "t4"
      (Account.new 1001 "Alice" "p1" (Double.fin 150)) (by decide) (by decide!)
      (by decide!)).1, by decide!,
    (self_transfer_rounded aliceBob 1001 (Double.fin 75) "t1" "t2" "t3" "t4"
      (Account.new 1001 "Alice" "p1" (Double.fin 150)) (by decide) (by decide!)
      (by decide!)).2.2.2.2.2 150 75 rfl rfl (by decide!) (by decide!)⟩

end Machine

namespace Machine

/-- C12, as stated, fails: a balance can be a NaN, which `std::stod` reads from the text `nan`.
loadAccounts builds from the file with the account lines "1001,Alice,p1,nan" and "1002,Bob,p2,0"
a ledger in which Alice's balance is a NaN. A transfer of 5 from Alice to Bob then finds both
accounts, the amount is not `<= 0`, the balance is not `< amount`, and the result is
"Transfer failed", not success. -/
theorem transfer_classification_counterexample :
    (BankingSystem.init.loadAccounts (some nanFile) 0).toOption = some nanLedger ∧
    (nanLedger.getAccount 1001).map (fun a => a.balance) = some (Double.nan false) ∧
    (nanLedger.getAccount 1002).isSome = true ∧
    Double.le (Double.fin 5) Double.zero = false ∧
    Double.lt (Double.nan false) (Double.fin 5) = false ∧
    (nanLedger.transfer 1001 1002 (Double.fin 5) "t1" "t2" "t3" "t4").1 =
      (false, "Transfer failed") ∧
    (nanLedger.transfer 1001 1002 (Double.fin 5) "t1" "t2" "t3" "t4").1 ≠
      (true, "Transfer successful") := by
  decide!

/-- C12, amended: `transfer` classifies its outcome in a fixed order. It reports
"Invalid account number(s)" exactly when the source or the destination is missing, whatever the
amount; otherwise "Invalid amount" exactly when `amount <= 0`; otherwise "Insufficient balance"
exactly when `balance < amount`; otherwise success exactly when `amount > 0` and
`amount <= balance`; and in the remaining case, which occurs exactly when the amount is a NaN or
the source balance is a NaN and the amount positive, "Transfer failed". When neither the amount
nor the source balance is a NaN, the outcome after the three refusals is success. -/
theorem transfer_classes (s : BankingSystem) (f t : Int) (amt : Double)
    (d1 d2 d3 d4 : String) :
    ((s.transfer f t amt d1 d2 d3 d4).1 = (false, "Invalid account number(s)") ↔
      (s.getAccount f = none ∨ s.getAccount t = none)) ∧
    ((s.transfer f t amt d1 d2 d3 d4).1 = (false, "Invalid amount") ↔
      ((s.getAccount f).isSome = true ∧ (s.getAccount t).isSome = true ∧
        Double.le amt Double.zero = true)) ∧
    ((s.transfer f t amt d1 d2 d3 d4).1 = (false, "Insufficient balance") ↔
      (∃ A, s.getAccount f = some A ∧ (s.getAccount t).isSome = true ∧
        Double.le amt Double.zero = false ∧ Double.lt A.balance amt = true)) ∧
    ((s.transfer f t amt d1 d2 d3 d4).1 = (true, "Transfer successful") ↔
      (∃ A, s.getAccount f = some A ∧ (s.getAccount t).isSome = true ∧
        Double.lt Double.zero amt = true ∧ Double.le amt A.balance = true)) ∧
    ((s.transfer f t amt d1 d2 d3 d4).1 = (false, "Transfer failed") ↔
      (∃ A, s.getAccount f = some A ∧ (s.getAccount t).isSome = true ∧
        (amt.isNaN = true ∨
          (A.balance.isNaN = true ∧ Double.lt Double.zero amt = true)))) ∧
    (∀ A, s.getAccount f = some A → (s.getAccount t).isSome = true →
      amt.isNaN = false → A.balance.isNaN = false →
      Double.le amt Double.zero = false → Double.lt A.balance amt = false →
      (s.transfer f t amt d1 d2 d3 d4).1 = (true, "Transfer successful")) := by
  refine ⟨?_, ?_, ?_, ?_, transfer_failed_iff_m s f t amt d1 d2 d3 d4, ?_⟩
  · rw [transfer_result_m]
    cases hf : s.getAccount f with
    | none => simp
    | some A =>
      cases ht : s.getAccount t with
      | none => simp
      | some B =>
        by_cases h1 : Double.le amt Double.zero = true
        · simp [h1]
        · by_cases h2 : Double.lt A.balance amt = true
          · simp [h1, h2]
          · by_cases h3 : (Double.lt Double.zero amt && Double.le amt A.balance) = true
            · simp [h1, h2, h3]
            · simp [h1, h2, h3]
  · rw [transfer_result_m]
    cases hf : s.getAccount f with
    | none => simp
    | some A =>
      cases ht : s.getAccount t with
      | none => simp
      | some B =>
        by_cases h1 : Double.le amt Double.zero = true
        · simp [h1]
        · by_cases h2 : Double.lt A.balance amt = true
          · simp [h1, h2]
          · by_cases h3 : (Double.lt Double.zero amt && Double.le amt A.balance) = true
            · simp [h1, h2, h3]
            · simp [h1, h2, h3]
  · rw [transfer_result_m]
    cases hf : s.getAccount f with
    | none => simp
    | some A =>
      cases ht : s.getAccount t with
      | none => simp
      | some B =>
        by_cases h1 : Double.le amt Double.zero = true
        · simp [h1]
        · by_cases h2 : Double.lt A.balance amt = true
          · simp [h1, h2]
          · by_cases h3 : (Double.lt Double.zero amt && Double.le amt A.balance) = true
            · simp [h1, h2, h3]
            · simp [h1, h2, h3]
  · rw [transfer_result_m]
    cases hf : s.getAccount f with
    | none => simp
    | some A =>
      cases ht : s.getAccount t with
      | none => simp
      | some B =>
        by_cases h1 : Double.le amt Double.zero = true
        · have hl := lt_false_of_le _ _ h1
          simp [h1, hl]
        · by_cases h2 : Double.lt A.balance amt = true
          · have hl : Double.le amt A.balance = false := le_false_of_lt _ _ h2
            simp [h1, h2, hl]
          · by_cases h3 : (Double.lt Double.zero amt && Double.le amt A.balance) = true
            · have h3' := h3
              simp only [Bool.and_eq_true] at h3'
              simp [h1, h2, h3'.1, h3'.2]
            · have h3' : ¬ (Double.lt Double.zero amt = true ∧
                  Double.le amt A.balance = true) := by simpa using h3
              simp only [h1, h2, h3, if_false, Option.some.injEq, Option.isSome_some, true_and,
                exists_eq_left']
              simp [h3']
  · intro A hA ht hn hb h1 h2
    have hpos := lt_of_not_le amt Double.zero hn rfl h1
    have hle := le_of_not_lt A.balance amt hb hn h2
    obtain ⟨B, hB⟩ := Option.isSome_iff_exists.mp ht
    rw [transfer_ok_eq_m s f t amt d1 d2 d3 d4 A B hA hB hpos hle]

/-- Witness for the amended C12: Alice (150) transfers 75 to Bob; both accounts exist, no NaN is
involved, the amount is positive and covered, and the outcome is success. -/
theorem transfer_classes_witness :
    aliceBob.getAccount 1001 = some (Account.new 1001 "Alice" "p1" (Double.fin 150)) ∧
    (aliceBob.getAccount 1002).isSome = true ∧
    Double.le (Double.fin 75) Double.zero = false ∧
    Double.lt (Account.new 1001 "Alice" "p1" (Double.fin 150)).balance (Double.fin 75) = false ∧
    (aliceBob.transfer 1001 1002 (Double.fin 75) "t1" "t2" "t3" "t4").1 =
      (true, "Transfer successful") :=
  ⟨by decide, by decide, by decide!, by decide!,
    (transfer_classes aliceBob 1001 1002 (Double.fin 75) "t1" "t2" "t3" "t4").2.2.2.2.2
      (Account.new 1001 "Alice" "p1" (Double.fin 150)) (by decide) (by decide) rfl rfl
      (by decide!) (by decide!)⟩

/-- C17, as stated, fails: the claim fixes the amount as an exact number but not the balance.
In the ledger that loadAccounts builds from the account lines "1001,Alice,p1,nan" and
"1002,Bob,p2,0", the transfer of 5 from Alice to Bob passes the checks of `transfer`, the
withdrawal inside it returns false, and the result is "Transfer failed". -/
theorem transfer_failed_counterexample :
    (BankingSystem.init.loadAccounts (some nanFile) 0).toOption = some nanLedger ∧
    ((Account.new 1001 "Alice" "p1" (Double.nan false)).withdraw (Double.fin 5) "t1").1 =
      false ∧
    (nanLedger.transfer 1001 1002 (Double.fin 5) "t1" "t2" "t3" "t4").1.2 =
      "Transfer failed" ∧
    (nanLedger.transfer 1001 1002 (Double.fin 5) "t1" "t2" "t3" "t4").2 = nanLedger := by
  decide!

/-- C17, amended: the withdrawal inside `transfer` returns true exactly when `amount > 0` and
`amount <= balance` hold as comparisons of `double` values. `transfer` returns
"Transfer failed" exactly when both accounts exist and the amount is a NaN, or the source
balance is a NaN and the amount is positive. So whenever neither the amount nor the balance of
the source is a NaN, "Transfer failed" is not returned. -/
theorem transfer_failed_iff_nan (s : BankingSystem) (f t : Int) (amt : Double)
    (d1 d2 d3 d4 : String) (A : Account) :
    (A.withdraw amt d1).1 = (Double.lt Double.zero amt && Double.le amt A.balance) ∧
    ((s.transfer f t amt d1 d2 d3 d4).1 = (false, "Transfer failed") ↔
      (∃ F, s.getAccount f = some F ∧ (s.getAccount t).isSome = true ∧
        (amt.isNaN = true ∨
          (F.balance.isNaN = true ∧ Double.lt Double.zero amt = true)))) ∧
    ((s.transfer f t amt d1 d2 d3 d4).1.2 = "Transfer failed" ↔
      (s.transfer f t amt d1 d2 d3 d4).1 = (false, "Transfer failed")) ∧
    (amt.isNaN = false → (∀ F, s.getAccount f = some F → F.balance.isNaN = false) →
      (s.transfer f t amt d1 d2 d3 d4).1.2 ≠ "Transfer failed") := by
  have hiff := transfer_failed_iff_m s f t amt d1 d2 d3 d4
  have hmsg : (s.transfer f t amt d1 d2 d3 d4).1.2 = "Transfer failed" ↔
      (s.transfer f t amt d1 d2 d3 d4).1 = (false, "Transfer failed") := by
    constructor
    · rw [transfer_result_m]
      cases s.getAccount f with
      | none => simp
      | some F =>
        cases s.getAccount t with
        | none => simp
        | some B =>
          by_cases h1 : Double.le amt Double.zero = true
          · simp [h1]
          · by_cases h2 : Double.lt F.balance amt = true
            · simp [h1, h2]
            · by_cases h3 : (Double.lt Double.zero amt && Double.le amt F.balance) = true
              · simp [h1, h2, h3]
              · simp [h1, h2, h3]
    · intro e
      rw [e]
  refine ⟨withdraw_flag_m A amt d1, hiff, hmsg, ?_⟩
  intro hn hb e2
  obtain ⟨F, hF, _, hc⟩ := hiff.mp (hmsg.mp e2)
  rcases hc with hc | ⟨hc, _⟩
  · rw [hn] at hc
    cases hc
  · rw [hb F hF] at hc
    cases hc

/-- Witness for the amended C17: Alice (150) transfers 75 to Bob; no NaN is involved, and the
result is not "Transfer failed". -/
theorem transfer_failed_iff_nan_witness :
    (Double.fin 75).isNaN = false ∧
    (∀ F, aliceBob.getAccount 1001 = some F → F.balance.isNaN = false) ∧
    (aliceBob.transfer 1001 1002 (Double.fin 75) "t1" "t2" "t3" "t4").1.2 ≠
      "Transfer failed" := by
  have hb : ∀ F, aliceBob.getAccount 1001 = some F → F.balance.isNaN = false := by
    intro F hF
    have e : aliceBob.getAccount 1001 =
        some (Account.new 1001 "Alice" "p1" (Double.fin 150)) := by decide
    rw [e] at hF
    cases hF
    rfl
  exact ⟨rfl, hb,
    (transfer_failed_iff_nan aliceBob 1001 1002 (Double.fin 75) "t1" "t2" "t3" "t4"
      (Account.new 1001 "Alice" "p1" (Double.fin 150))).2.2.2 rfl hb⟩

end Machine

namespace Machine

/-- C20, as stated, fails: a balance can be a subnormal `double`. For the ledger with the one
account of Alice whose balance is the `double` nearest to 1e-320, saveAccounts writes the
balance as "9.99989e-321"; on reading this text back `std::stod` raises out_of_range, which
nothing catches, so loadAccounts does not return and restores nothing. -/
theorem load_after_save_counterexample :
    (BankingSystem.init.createAccount "Alice" "p1" (Double.ofRat (1 / 10 ^ 320))).2 =
      tinyLedger ∧
    tinyLedger.accounts.length = 1 ∧
    (∀ p ∈ tinyLedger.accounts, ',' ∉ p.2.name.data ∧ '\n' ∉ p.2.name.data ∧
      ',' ∉ p.2.password.data ∧ '\n' ∉ p.2.password.data) ∧
    String.mk tinyLedger.saveAccounts = "1002\n1\n1001,Alice,p1,9.99989e-321\n0\n" ∧
    raised (stod "9.99989e-321".data) = some Exn.out_of_range ∧
    raised (BankingSystem.init.loadAccounts (some tinyLedger.saveAccounts) 0) =
      some Exn.out_of_range := by
  decide!

/-- C20, amended: what survives a save and load cycle. For a ledger with at least one account
whose map is in ascending key order with every account stored under its own number, whose
counter, account numbers and account count are 32-bit `int` values, whose names and passwords
contain no comma or newline, whose record texts contain no newline and whose balances are
written as text that `std::stod` reads without raising, loadAccounts applied to the text written
by saveAccounts returns normally; it restores the counter; it restores the lowest-numbered
account with its number, name and password and the balance read back from its text; it restores
at most half of the accounts, rounded up; every restored account is one of the ledger with the
same number, name and password, and has an empty history. -/
theorem load_after_save_readable (s : BankingSystem) (p0 : Int × Account)
    (rest : List (Int × Account)) (n0 : Int) (hacc : s.accounts = p0 :: rest)
    (hsorted : s.accounts.keys.Pairwise (fun a b => a < b))
    (hkey : ∀ p ∈ s.accounts, p.2.accountNumber = p.1)
    (hn1 : -2147483648 ≤ s.nextAccountNumber) (hn2 : s.nextAccountNumber ≤ 2147483647)
    (hlen : s.accounts.length ≤ 2147483647) (hst : ∀ p ∈ s.accounts, Storable p.2) :
    ∃ r, BankingSystem.init.loadAccounts (some s.saveAccounts) n0 = .ok r ∧
      r.nextAccountNumber = s.nextAccountNumber ∧
      (∀ q ∈ s.accounts, p0.1 ≤ q.1) ∧
      r.getAccount p0.1 =
        some { accountNumber := p0.1, name := p0.2.name, password := p0.2.password,
               balance := reread p0.2.balance, transactionHistory := [] } ∧
      stod p0.2.balance.put = .ok (reread p0.2.balance) ∧
      2 * r.accounts.length ≤ s.accounts.length + 1 ∧
      (∀ q ∈ r.accounts, q.2.transactionHistory = [] ∧
        ∃ p ∈ s.accounts, q.1 = p.1 ∧ q.2.accountNumber = p.2.accountNumber ∧
          q.2.name = p.2.name ∧ q.2.password = p.2.password) := by
  refine ⟨_, loadAccounts_saved_m s n0 hn1 hn2 hlen hst, rfl, ?_, ?_, ?_, ?_, ?_⟩
  · intro q hq
    rw [hacc] at hq hsorted
    simp only [AccountMap.keys, List.map_cons, List.pairwise_cons] at hsorted
    simp only [List.mem_cons] at hq
    rcases hq with hq | hq
    · rw [hq]
    · exact le_of_lt (hsorted.1 q.1 (List.mem_map_of_mem Prod.fst hq))
  · have hk0 : p0.2.accountNumber = p0.1 := hkey p0 (by rw [hacc]; simp)
    have hne : ∀ q ∈ restored rest (rest.length - (1 + p0.2.transactionHistory.length)),
        q.1 ≠ p0.1 := by
      intro q hq
      obtain ⟨p, hp, e⟩ := restored_mem_m _ _ q hq
      have hpk : p.2.accountNumber = p.1 := hkey p (by rw [hacc]; simp [hp])
      have hlt : p0.1 < p.1 := by
        rw [hacc] at hsorted
        simp only [AccountMap.keys, List.map_cons, List.pairwise_cons] at hsorted
        exact hsorted.1 p.1 (List.mem_map_of_mem Prod.fst hp)
      rw [e]
      simp only [hpk]
      omega
    simp only [BankingSystem.getAccount, hacc, List.length_cons, restored, emplaceAll,
      List.foldl_cons]
    have := emplaceAll_find_m (AccountMap.emplace [] p0.2.accountNumber
      (Account.new p0.2.accountNumber p0.2.name p0.2.password (reread p0.2.balance)))
      _ p0.1 hne
    simp only [emplaceAll] at this
    rw [this]
    simp [AccountMap.emplace, AccountMap.find, hk0, Account.new]
  · exact stod_put_ok _ (hst p0 (by rw [hacc]; simp)).2.2.2.2
  · have h1 := emplaceAll_length_le_m [] (restored s.accounts s.accounts.length)
    have h2 := restored_length_m s.accounts s.accounts.length
    simp only [List.length_nil] at h1
    show 2 * (emplaceAll [] (restored s.accounts s.accounts.length)).length ≤ _
    omega
  · intro q hq
    rcases emplaceAll_mem_m [] _ q hq with h | h
    · simp at h
    · obtain ⟨p, hp, e⟩ := restored_mem_m _ _ q h
      rw [e]
      exact ⟨rfl, p, hp, hkey p hp, rfl, rfl, rfl⟩

/-- Witness for the amended C20: the ledger of Alice (1001) and Bob (1002); only Alice comes
back. -/
theorem load_after_save_readable_witness :
    ∃ r, BankingSystem.init.loadAccounts (some aliceBob.saveAccounts) 0 = .ok r ∧
      r.nextAccountNumber = aliceBob.nextAccountNumber ∧
      (∀ q ∈ aliceBob.accounts,
        (1001, Account.new 1001 "Alice" "p1" (Double.fin 150)).1 ≤ q.1) ∧
      r.getAccount (1001, Account.new 1001 "Alice" "p1" (Double.fin 150)).1 =
        some { accountNumber := (1001, Account.new 1001 "Alice" "p1" (Double.fin 150)).1,
               name := (1001, Account.new 1001 "Alice" "p1" (Double.fin 150)).2.name,
               password := (1001, Account.new 1001 "Alice" "p1" (Double.fin 150)).2.password,
               balance := reread (1001, Account.new 1001 "Alice" "p1" (Double.fin 150)).2.balance,
               transactionHistory := [] } ∧
      stod (1001, Account.new 1001 "Alice" "p1" (Double.fin 150)).2.balance.put =
        .ok (reread (1001, Account.new 1001 "Alice" "p1" (Double.fin 150)).2.balance) ∧
      2 * r.accounts.length ≤ aliceBob.accounts.length + 1 ∧
      (∀ q ∈ r.accounts, q.2.transactionHistory = [] ∧
        ∃ p ∈ aliceBob.accounts, q.1 = p.1 ∧ q.2.accountNumber = p.2.accountNumber ∧
          q.2.name = p.2.name ∧ q.2.password = p.2.password) :=
  load_after_save_readable aliceBob (1001, Account.new 1001 "Alice" "p1" (Double.fin 150))
    [(1002, Account.new 1002 "Bob" "p2" (Double.fin 0))] 0 rfl (by decide) (by decide)
    (by decide) (by decide) (by decide) (by decide!)

end Machine

end Bank
